import Mathlib

/-
Verification of the hierarchy-selection engine of the todoist_bot repository.

The embedding translates `src/todoist_bot/tree.py` and
`src/todoist_bot/task_subsets.py` into Lean:

* Python strings used for display text are `List Char`; ids stay `String`.
* The three entity kinds (Project, Section, Task) are records carrying exactly
  the fields the two modules read: `id`, the display-text field, the integer
  `order`, and the parent-reference fields.
* A built forest (`map_id_to_branch`'s result) is a pointer graph in Python:
  a dict id -> Node where each Node holds `data` and a mutable child list.
  We represent it as `Forest`: an id -> data association list (later bindings
  shadow earlier ones, as in a Python dict built by comprehension / `{**a,**b}`
  merge) together with the ordered list of (parent id, child id) attachments
  performed during construction.  A node's child list is the subsequence of
  attachments naming it as parent, in order — exactly the order in which
  `add_child` appended children in the source.  Ids are unique in well-formed
  batches (the data model's "unique id" invariant), making id references
  equivalent to the source's object references.  Cyclic parent structures,
  which the Python pointer graph can represent, remain representable here.
* Traversals (`iter_tasks`, `iter_childless_tasks`, and the `next(...)` of a
  fresh `iter_childless_tasks` generator used by `select_serial`) are given a
  fuel parameter and are structurally recursive on it, so that concrete runs
  evaluate inside the kernel.  Fuel exhaustion returns an error; a Python run
  on the same input would instead fail to terminate (only possible on cyclic
  structures), so every terminating Python run is mirrored by every
  sufficiently large fuel.
* Fallible code (raise ValueError / KeyError, generator errors) returns
  `Except String`.
-/

namespace TodoistBot

/-- Project model: the fields of a Todoist project read by tree.py and
task_subsets.py (`id`, `name`, `order`, `parent_id`). -/
structure Project where
  id : String
  name : List Char
  order : Int
  parent_id : Option String
deriving DecidableEq, Repr

/-- Section model: fields read by the two modules (`id`, `name`, `order`,
`project_id`). -/
structure Sec where
  id : String
  name : List Char
  order : Int
  project_id : String
deriving DecidableEq, Repr

/-- Task model: fields read by the two modules (`id`, `content`, `order`,
`parent_id`, `project_id`, `section_id`). -/
structure Task where
  id : String
  content : List Char
  order : Int
  parent_id : Option String
  project_id : String
  section_id : Option String
deriving DecidableEq, Repr

/-- The payload of a tree node: a Project, Section, or Task.  Mirrors the
`_Model` union of tree.py; the `isinstance` dispatches of the source become
matches on this sum. -/
inductive NodeData where
  | proj (p : Project)
  | sect (s : Sec)
  | task (t : Task)
deriving DecidableEq, Repr

/-- The id of a node's model (`model.id` in the source). -/
def dataId : NodeData → String
  | .proj p => p.id
  | .sect s => s.id
  | .task t => t.id

/-- The display text of a model: `name` for Projects and Sections, `content`
for Tasks. -/
def displayText : NodeData → List Char
  | .proj p => p.name
  | .sect s => s.name
  | .task t => t.content

/-- Whitespace test matching Python `str.strip()` on ASCII text. -/
def isSpaceChar (c : Char) : Bool :=
  c = ' ' || c = '\t' || c = '\n' || c = '\r' || c = '\x0b' || c = '\x0c'

/-- Python `name.strip()`: remove leading and trailing whitespace. -/
def stripChars (l : List Char) : List Char :=
  ((l.dropWhile isSpaceChar).reverse.dropWhile isSpaceChar).reverse

/-- Python `name.endswith(suffix)`. -/
def endswith (l sfx : List Char) : Bool :=
  sfx.isSuffixOf l

/-- Embedding of `task_subsets._has_suffix`: Projects and Sections expose the
display text as `name`, Tasks as `content`; the element is a marker when the
stripped text ends with the suffix. -/
def _has_suffix (elem : NodeData) (sfx : List Char) : Bool :=
  match elem with
  | .proj p => endswith (stripChars p.name) sfx
  | .sect s => endswith (stripChars s.name) sfx
  | .task t => endswith (stripChars t.content) sfx

/-- Second definition for the refinement comparison of the marker predicate.
Follows the spec's words ("display text, with trailing whitespace trimmed,
ends with the exact configured suffix string"): only trailing whitespace is
removed before the comparison, unlike the source's `strip()` which also
removes leading whitespace. -/
def specHasSuffix (elem : NodeData) (sfx : List Char) : Bool :=
  match elem with
  | .proj p => endswith (p.name.reverse.dropWhile isSpaceChar).reverse sfx
  | .sect s => endswith (s.name.reverse.dropWhile isSpaceChar).reverse sfx
  | .task t => endswith (t.content.reverse.dropWhile isSpaceChar).reverse sfx

/-- Embedding of `tree._node_sort_key`.  The source tests `isinstance(Task)`
first (rank 1), then `isinstance(Section)` (rank 2); its third branch tests
`isinstance(Task) and parent_id`, which the first branch has already
exhausted, so a Project node falls through to `raise ValueError`.  The match
below reproduces that reachable behaviour. -/
def _node_sort_key (d : NodeData) : Except String (Int × Int) :=
  match d with
  | .task t => .ok (1, t.order)
  | .sect s => .ok (2, s.order)
  | .proj _ => .error "Unexpected node type"

/-- Python tuple comparison on sort keys, strict form. -/
def keyLt (a b : Int × Int) : Bool :=
  a.1 < b.1 || (a.1 = b.1 && a.2 < b.2)

/-- Stable insertion of a keyed element: it goes after every element with a
strictly smaller key and after earlier-listed elements with an equal key. -/
def insertKeyed (x : String × (Int × Int)) :
    List (String × (Int × Int)) → List (String × (Int × Int))
  | [] => [x]
  | y :: ys => if keyLt y.2 x.2 then y :: insertKeyed x ys else x :: y :: ys

/-- Stable sort of keyed elements by key.  Python's `sorted` is specified as a
stable sort by key, so its output coincides with this insertion sort. -/
def sortKeyed : List (String × (Int × Int)) → List (String × (Int × Int))
  | [] => []
  | x :: xs => insertKeyed x (sortKeyed xs)

/-- A built forest: the id -> model map (`{**project_nodes, **section_nodes,
**task_nodes}`) as an association list where later bindings shadow earlier
ones, plus the ordered (parent id, child id) attachments made by `add_child`
during construction. -/
structure Forest where
  nodeEntries : List (String × NodeData)
  attachments : List (String × String)
deriving DecidableEq, Repr

/-- Association-list lookup where later bindings win, matching a Python dict
built by successive insertion. -/
def dictGet : List (String × NodeData) → String → Option NodeData
  | [], _ => none
  | e :: rest, i =>
    match dictGet rest i with
    | some r => some r
    | none => if e.1 = i then some e.2 else none

/-- Data of the node registered under an id (`id2node[i].data`). -/
def Forest.getData (f : Forest) (i : String) : Option NodeData :=
  dictGet f.nodeEntries i

/-- Child ids of the node registered under an id, in attachment order
(`id2node[i]._children`). -/
def Forest.childrenOf (f : Forest) (i : String) : List String :=
  (f.attachments.filter (fun a => a.1 == i)).map (fun a => a.2)

/-- One pass of the `_place_subs` while-loop body: each queued
(child id, parent id) pair either attaches (parent id present in the id map)
or is re-queued.  Returns the attachments made, in queue order, and the
re-queued remainder. -/
def placePass (keys : List String) :
    List (String × String) → List (String × String) × List (String × String)
  | [] => ([], [])
  | (c, p) :: rest =>
    let r := placePass keys rest
    if p ∈ keys then ((p, c) :: r.1, r.2) else (r.1, (c, p) :: r.2)

/-- The `_place_subs` while-loop.  The source loops while the queue is
nonempty and raises when a full pass attaches nothing; every productive pass
strictly shrinks the queue, so the initial queue length bounds the number of
passes and serves as structural fuel (the fuel branch is unreachable when the
fuel is at least the queue length). -/
def placeLoop (keys : List String) :
    Nat → List (String × String) → Except String (List (String × String))
  | _, [] => .ok []
  | 0, _ :: _ => .error "Could not find a parent for all tasks"
  | fuel + 1, c :: q =>
    let r := placePass keys (c :: q)
    if r.2.length < (c :: q).length then
      match placeLoop keys fuel r.2 with
      | .error e => .error e
      | .ok att2 => .ok (r.1 ++ att2)
    else .error "Could not find a parent for all tasks"

/-- Embedding of `tree._place_subs`: queue the items that carry a parent id
and resolve them against the full id map of the same kind. -/
def _place_subs (items : List (String × Option String)) :
    Except String (List (String × String)) :=
  let pending := items.filterMap (fun x =>
    match x.2 with
    | some p => some (x.1, p)
    | none => none)
  placeLoop (items.map (fun x => x.1)) pending.length pending

/-- Attachment of each section to its owning project
(`project_nodes[sect.data.project_id].add_child(sect)`); a missing project id
raises KeyError in the source. -/
def attachSections (pids : List String) : List Sec → Except String (List (String × String))
  | [] => .ok []
  | s :: rest =>
    if s.project_id ∈ pids then
      match attachSections pids rest with
      | .error e => .error e
      | .ok atts => .ok ((s.project_id, s.id) :: atts)
    else .error "KeyError: project not found for section"

/-- Attachment of each task without a task parent to its section when
`section_id` is set, else to its project; missing targets raise KeyError in
the source. -/
def attachRootTasks (pids sids : List String) : List Task → Except String (List (String × String))
  | [] => .ok []
  | t :: rest =>
    match t.parent_id with
    | some _ => attachRootTasks pids sids rest
    | none =>
      let att : Except String (String × String) :=
        match t.section_id with
        | some sid =>
          if sid ∈ sids then .ok (sid, t.id) else .error "KeyError: section not found for task"
        | none =>
          if t.project_id ∈ pids then .ok (t.project_id, t.id)
          else .error "KeyError: project not found for task"
      match att with
      | .error e => .error e
      | .ok a =>
        match attachRootTasks pids sids rest with
        | .error e => .error e
        | .ok atts => .ok (a :: atts)

/-- Embedding of `tree.map_id_to_branch`: place subprojects, attach sections,
place subtasks, attach parentless tasks, and return the merged id map with
the recorded attachments. -/
def map_id_to_branch (ps : List Project) (ss : List Sec) (ts : List Task) :
    Except String Forest :=
  match _place_subs (ps.map (fun p => (p.id, p.parent_id))) with
  | .error e => .error e
  | .ok projAtt =>
    match attachSections (ps.map (fun p => p.id)) ss with
    | .error e => .error e
    | .ok sectAtt =>
      match _place_subs (ts.map (fun t => (t.id, t.parent_id))) with
      | .error e => .error e
      | .ok taskAtt =>
        match attachRootTasks (ps.map (fun p => p.id)) (ss.map (fun s => s.id)) ts with
        | .error e => .error e
        | .ok rootAtt =>
          .ok { nodeEntries :=
                  ps.map (fun p => (p.id, NodeData.proj p))
                    ++ ss.map (fun s => (s.id, NodeData.sect s))
                    ++ ts.map (fun t => (t.id, NodeData.task t)),
                attachments := projAtt ++ sectAtt ++ taskAtt ++ rootAtt }

/-- Keys for a child id list: `sorted`'s key function applied to each element
in list order (`_node_sort_key(child)` on the child's data); the first key
error aborts, as in the source. -/
def keyChildren (f : Forest) : List String → Except String (List (String × (Int × Int)))
  | [] => .ok []
  | i :: rest =>
    match f.getData i with
    | none => .error "missing child node"
    | some d =>
      match _node_sort_key d with
      | .error e => .error e
      | .ok k =>
        match keyChildren f rest with
        | .error e => .error e
        | .ok ks => .ok ((i, k) :: ks)

/-- Embedding of `Node._sort_children`'s sorting step:
`sorted(self._children, key=_node_sort_key)`. -/
def sortChildren (f : Forest) (ids : List String) : Except String (List String) :=
  match keyChildren f ids with
  | .error e => .error e
  | .ok keyed => .ok ((sortKeyed keyed).map (fun x => x.1))

/-- Sequential concatenation of a traversal over a child list
(`for child in self._children: yield from child.iter_...()`). -/
def iterList (g : String → Except String (List Task)) :
    List String → Except String (List Task)
  | [] => .ok []
  | c :: cs =>
    match g c with
    | .error e => .error e
    | .ok ts1 =>
      match iterList g cs with
      | .error e => .error e
      | .ok ts2 => .ok (ts1 ++ ts2)

/-- Embedding of `Node.iter_tasks` run to exhaustion: sort the children, visit
them in order, then yield the node's own data when it is a Task (post-order).
The fuel argument bounds the tree depth; a fuel error mirrors nontermination
of the Python generator, which only a cyclic node structure can cause. -/
def iter_tasks (f : Forest) : Nat → String → Except String (List Task)
  | 0 => fun _ => .error "out of fuel"
  | fuel + 1 => fun i =>
    match f.getData i with
    | none => .error "KeyError: node not found"
    | some d =>
      match sortChildren f (f.childrenOf i) with
      | .error e => .error e
      | .ok cs =>
        match iterList (iter_tasks f fuel) cs with
        | .error e => .error e
        | .ok tss =>
          .ok (tss ++ (match d with | .task t => [t] | _ => []))

/-- Embedding of `Node.iter_childless_tasks` run to exhaustion: like
`iter_tasks`, but the node yields its own data only when it is a Task with an
empty child list. -/
def iter_childless_tasks (f : Forest) : Nat → String → Except String (List Task)
  | 0 => fun _ => .error "out of fuel"
  | fuel + 1 => fun i =>
    match f.getData i with
    | none => .error "KeyError: node not found"
    | some d =>
      match sortChildren f (f.childrenOf i) with
      | .error e => .error e
      | .ok cs =>
        match iterList (iter_childless_tasks f fuel) cs with
        | .error e => .error e
        | .ok tss =>
          .ok (tss ++ (match d, cs with | .task t, [] => [t] | _, _ => []))

/-- Short-circuiting scan of a child list for the first yielded childless
task: later children are not visited once one is found, matching the paused
generator. -/
def firstAux (g : String → Except String (Option Task)) :
    List String → Except String (Option Task)
  | [] => .ok none
  | c :: cs =>
    match g c with
    | .error e => .error e
    | .ok (some t) => .ok (some t)
    | .ok none => firstAux g cs

/-- Embedding of `next(node.iter_childless_tasks())` as used by
`select_serial`: run the generator only up to its first yield.  Children are
sorted (errors there are raised), visited in order until one yields, and the
node itself is the last candidate; `.ok none` is the StopIteration case.
Work the exhaustive generator would do after the first yield — including
raising — is never reached. -/
def firstChildless (f : Forest) : Nat → String → Except String (Option Task)
  | 0 => fun _ => .error "out of fuel"
  | fuel + 1 => fun i =>
    match f.getData i with
    | none => .error "KeyError: node not found"
    | some d =>
      match sortChildren f (f.childrenOf i) with
      | .error e => .error e
      | .ok cs =>
        match firstAux (firstChildless f fuel) cs with
        | .error e => .error e
        | .ok (some t) => .ok (some t)
        | .ok none =>
          match d, cs with
          | .task t, [] => .ok (some t)
          | _, _ => .ok none

/-- The marker list: `filter(fselect, projects + sections + tasks)`. -/
def markersOf (ps : List Project) (ss : List Sec) (ts : List Task) (sfx : List Char) :
    List NodeData :=
  (ps.map NodeData.proj ++ ss.map NodeData.sect ++ ts.map NodeData.task).filter
    (fun d => _has_suffix d sfx)

/-- Insertion into the insertion-ordered dict `selected`
(`selected[t.id] = t`): an existing key keeps its position and takes the new
value; a new key is appended. -/
def dictInsert (acc : List (String × Task)) (t : Task) : List (String × Task) :=
  if acc.any (fun e => e.1 == t.id) then
    acc.map (fun e => if e.1 == t.id then (e.1, t) else e)
  else acc ++ [(t.id, t)]

/-- `selected.update({x.id: x for x in gen})`: on an insertion-ordered dict
this equals inserting the yielded tasks one by one. -/
def dictInsertAll (acc : List (String × Task)) : List Task → List (String × Task)
  | [] => acc
  | t :: rest => dictInsertAll (dictInsert acc t) rest

/-- The marker loop of `select_serial`: for each marker take the first
childless task of its subtree, skipping markers whose generator stops
immediately (suppressed StopIteration); KeyError and ValueError propagate. -/
def serialFold (f : Forest) (fuel : Nat) :
    List NodeData → List (String × Task) → Except String (List (String × Task))
  | [], acc => .ok acc
  | d :: ms, acc =>
    match firstChildless f fuel (dataId d) with
    | .error e => .error e
    | .ok none => serialFold f fuel ms acc
    | .ok (some t) => serialFold f fuel ms (dictInsert acc t)

/-- The marker loop shared by `select_parallel` and `select_all`, which in
the source differ only in the generator run for each marker: union every task
the generator yields over the marker's subtree into `selected`. -/
def collectFold (collect : String → Except String (List Task)) :
    List NodeData → List (String × Task) → Except String (List (String × Task))
  | [], acc => .ok acc
  | d :: ms, acc =>
    match collect (dataId d) with
    | .error e => .error e
    | .ok l => collectFold collect ms (dictInsertAll acc l)

/-- The shared return shape of the three selecters:
`(list(selected.values()), [x for x in tasks if x.id not in selected])`. -/
def selectReturn (ts : List Task) (sel : List (String × Task)) :
    List Task × List Task :=
  (sel.map (fun e => e.2), ts.filter (fun x => !(sel.any (fun e => e.1 == x.id))))

/-- Embedding of `task_subsets.select_serial`. -/
def select_serial (ps : List Project) (ss : List Sec) (ts : List Task)
    (f : Forest) (sfx : List Char) (fuel : Nat) :
    Except String (List Task × List Task) :=
  match serialFold f fuel (markersOf ps ss ts sfx) [] with
  | .error e => .error e
  | .ok sel => .ok (selectReturn ts sel)

/-- Embedding of `task_subsets.select_parallel`. -/
def select_parallel (ps : List Project) (ss : List Sec) (ts : List Task)
    (f : Forest) (sfx : List Char) (fuel : Nat) :
    Except String (List Task × List Task) :=
  match collectFold (iter_childless_tasks f fuel) (markersOf ps ss ts sfx) [] with
  | .error e => .error e
  | .ok sel => .ok (selectReturn ts sel)

/-- Embedding of `task_subsets.select_all`. -/
def select_all (ps : List Project) (ss : List Sec) (ts : List Task)
    (f : Forest) (sfx : List Char) (fuel : Nat) :
    Except String (List Task × List Task) :=
  match collectFold (iter_tasks f fuel) (markersOf ps ss ts sfx) [] with
  | .error e => .error e
  | .ok sel => .ok (selectReturn ts sel)

/-- Mutable-node state for the sealed-after-sort invariant of `Node`:
the child list and the `_are_children_sorted` flag. -/
structure NodeMut where
  childIds : List String
  areChildrenSorted : Bool
deriving DecidableEq, Repr

/-- Embedding of `Node.add_child`: appending to a sorted node raises. -/
def add_child (n : NodeMut) (c : String) : Except String NodeMut :=
  if n.areChildrenSorted then .error "Cannot add a child to a sorted node"
  else .ok { n with childIds := n.childIds ++ [c] }

/-- Embedding of `Node._sort_children`: a no-op on an already-sorted node
(the cached order is reused); otherwise sort once and set the flag.  A key
error (a Project child) leaves the node unchanged, as the exception is raised
before the assignment. -/
def _sort_children (f : Forest) (n : NodeMut) : Except String NodeMut :=
  if n.areChildrenSorted then .ok n
  else
    match sortChildren f n.childIds with
    | .error e => .error e
    | .ok cs => .ok { childIds := cs, areChildrenSorted := true }

/-! Concrete inputs used by the closed theorems and witnesses below. -/

/-- Spec scenario container: project "p" named "Inbox --", order 0. -/
def prjInbox : Project := { id := "p", name := "Inbox --".data, order := 0, parent_id := none }

/-- Spec scenario leaf item A: task "a", content "first", order 0, directly in "p". -/
def taskFirst : Task :=
  { id := "a", content := "first".data, order := 0, parent_id := none,
    project_id := "p", section_id := none }

/-- Spec scenario leaf item B: task "b", content "second", order 1, directly in "p". -/
def taskSecond : Task :=
  { id := "b", content := "second".data, order := 1, parent_id := none,
    project_id := "p", section_id := none }

/-- A marked project with no descendants. -/
def prjEmpty : Project := { id := "q", name := "Empty --".data, order := 1, parent_id := none }

/-- Parallel-scenario container: project "p" named "Inbox -a". -/
def prjInboxA : Project := { id := "p", name := "Inbox -a".data, order := 0, parent_id := none }

/-- Parallel-scenario subcontainer S in "p". -/
def secS : Sec := { id := "s", name := "stuff".data, order := 0, project_id := "p" }

/-- Parallel-scenario leaf item C in section "s". -/
def taskC : Task :=
  { id := "c", content := "cc".data, order := 0, parent_id := none,
    project_id := "p", section_id := some "s" }

/-- Parallel-scenario leaf item D in section "s"; it has a child. -/
def taskD : Task :=
  { id := "d", content := "dd".data, order := 1, parent_id := none,
    project_id := "p", section_id := some "s" }

/-- Parallel-scenario leaf item E, a subtask of D. -/
def taskE : Task :=
  { id := "e", content := "ee".data, order := 0, parent_id := some "d",
    project_id := "p", section_id := some "s" }

/-- Cyclic pair: task "ca" names "cb" as parent. -/
def taskCycA : Task :=
  { id := "ca", content := "one".data, order := 0, parent_id := some "cb",
    project_id := "p", section_id := none }

/-- Cyclic pair: task "cb" names "ca" as parent. -/
def taskCycB : Task :=
  { id := "cb", content := "two".data, order := 1, parent_id := some "ca",
    project_id := "p", section_id := none }

/-- Root project "r" named "Root -x", carrying the subproject below. -/
def prjRoot : Project := { id := "r", name := "Root -x".data, order := 0, parent_id := none }

/-- Subproject "u" of "r". -/
def prjSub : Project := { id := "u", name := "Child".data, order := 0, parent_id := some "r" }

/-- A section whose owning project id matches no project. -/
def secOrphan : Sec := { id := "so", name := "orphan".data, order := 0, project_id := "nope" }

/-- Task whose content is " x": its `strip()` removes the leading space. -/
def taskWs : Task :=
  { id := "w", content := " x".data, order := 0, parent_id := none,
    project_id := "p", section_id := none }

/-- The forest with no nodes, used where only the node-state machine matters. -/
def emptyForest : Forest := { nodeEntries := [], attachments := [] }

/-- The forest `map_id_to_branch` builds from ([prjInbox], [], [taskFirst,
taskSecond]). -/
def forestInbox : Forest :=
  { nodeEntries := [("p", .proj prjInbox), ("a", .task taskFirst), ("b", .task taskSecond)],
    attachments := [("p", "a"), ("p", "b")] }

/-! Helper lemmas. -/

/-- A successful association-list lookup returns a recorded binding. -/
theorem dictGet_mem {l : List (String × NodeData)} {i : String} {v : NodeData}
    (h : dictGet l i = some v) : (i, v) ∈ l := by
  induction l with
  | nil => simp [dictGet] at h
  | cons e rest ih =>
    cases e with
    | mk k w =>
      simp only [dictGet] at h
      cases hr : dictGet rest i with
      | some r =>
        rw [hr] at h
        simp only [] at h
        cases h
        exact List.mem_cons_of_mem _ (ih hr)
      | none =>
        rw [hr] at h
        by_cases he : k = i
        · rw [if_pos he] at h
          cases h
          subst he
          exact List.mem_cons_self _ _
        · rw [if_neg he] at h
          cases h

/-- Lookup over concatenated bindings: the later block wins. -/
theorem dictGet_append (l1 l2 : List (String × NodeData)) (i : String) :
    dictGet (l1 ++ l2) i =
      match dictGet l2 i with
      | some v => some v
      | none => dictGet l1 i := by
  induction l1 with
  | nil =>
    simp only [List.nil_append]
    cases h2 : dictGet l2 i <;> simp [dictGet]
  | cons e rest ih =>
    have h1 : dictGet ((e :: rest) ++ l2) i =
        match dictGet (rest ++ l2) i with
        | some r => some r
        | none => if e.1 = i then some e.2 else none := rfl
    rw [h1, ih]
    cases h2 : dictGet l2 i with
    | some v => rfl
    | none =>
      have h3 : dictGet (e :: rest) i =
          match dictGet rest i with
          | some r => some r
          | none => if e.1 = i then some e.2 else none := rfl
      rw [h3]

/-- Lookup misses when no binding carries the key. -/
theorem dictGet_none {l : List (String × NodeData)} {i : String}
    (h : ∀ e ∈ l, e.1 ≠ i) : dictGet l i = none := by
  induction l with
  | nil => rfl
  | cons e rest ih =>
    simp only [dictGet]
    rw [ih (fun e' he' => h e' (List.mem_cons_of_mem _ he'))]
    simp [h e (List.mem_cons_self _ _)]

/-- Items whose parent id is absent from the id map are always re-queued. -/
theorem placePass_requeued {keys : List String} {q : List (String × String)}
    {e : String × String} (he : e ∈ q) (hp : e.2 ∉ keys) :
    e ∈ (placePass keys q).2 := by
  induction q with
  | nil => cases he
  | cons x rest ih =>
    cases x with
    | mk c p =>
      simp only [placePass]
      rcases List.mem_cons.1 he with h | h
      · subst h
        simp only at hp
        simp [hp]
      · split
        · exact ih h
        · exact List.mem_cons_of_mem _ (ih h)

/-- The `_place_subs` loop fails whenever some queued item's parent id is
absent from the id map, no matter the remaining fuel. -/
theorem placeLoop_err {keys : List String} :
    ∀ (fuel : Nat) (q : List (String × String)),
      (∃ e ∈ q, e.2 ∉ keys) → (placeLoop keys fuel q).isOk = false := by
  intro fuel
  induction fuel with
  | zero =>
    intro q hq
    rcases hq with ⟨e, he, _⟩
    cases q with
    | nil => cases he
    | cons c q' => rfl
  | succ n ih =>
    intro q hq
    rcases hq with ⟨e, he, hp⟩
    cases q with
    | nil => cases he
    | cons c q' =>
      simp only [placeLoop]
      split
      · have hmem : e ∈ (placePass keys (c :: q')).2 := placePass_requeued he hp
        cases hres : placeLoop keys n (placePass keys (c :: q')).2 with
        | error _ => rfl
        | ok _ =>
          have := ih (placePass keys (c :: q')).2 ⟨e, hmem, hp⟩
          rw [hres] at this
          cases this
      · rfl

/-- `_place_subs` fails whenever an item carries a parent id that is not the
id of any item of the same kind. -/
theorem place_subs_err {items : List (String × Option String)}
    (h : ∃ x ∈ items, ∃ pid, x.2 = some pid ∧ pid ∉ items.map (fun x => x.1)) :
    (_place_subs items).isOk = false := by
  rcases h with ⟨x, hx, pid, hpid, hnot⟩
  apply placeLoop_err
  refine ⟨(x.1, pid), ?_, hnot⟩
  apply List.mem_filterMap.2
  exact ⟨x, hx, by rw [hpid]⟩

/-- Section attachment fails whenever some section's owning project id is
absent. -/
theorem attachSections_err {pids : List String} {ss : List Sec}
    (h : ∃ s ∈ ss, s.project_id ∉ pids) :
    (attachSections pids ss).isOk = false := by
  induction ss with
  | nil => rcases h with ⟨s, hs, _⟩; cases hs
  | cons s0 rest ih =>
    rcases h with ⟨s, hs, hp⟩
    simp only [attachSections]
    rcases List.mem_cons.1 hs with h0 | h0
    · subst h0
      rw [if_neg hp]
      rfl
    · split
      · cases hres : attachSections pids rest with
        | error _ => rfl
        | ok _ =>
          have := ih ⟨s, h0, hp⟩
          rw [hres] at this
          cases this
      · rfl

/-! Claim theorems (error handling and marker detection). -/

/-- C6: forest construction fails (returns an error) whenever a section's
owning project id matches no project in the batch, or a project's or task's
parent id matches no entity of the same kind; no partial forest is returned
in any such case. -/
theorem claim_C6_construction_fails (ps : List Project) (ss : List Sec) (ts : List Task)
    (h : (∃ s ∈ ss, s.project_id ∉ ps.map (fun p => p.id))
      ∨ (∃ p ∈ ps, ∃ pid, p.parent_id = some pid ∧ pid ∉ ps.map (fun p => p.id))
      ∨ (∃ t ∈ ts, ∃ pid, t.parent_id = some pid ∧ pid ∉ ts.map (fun t => t.id))) :
    (map_id_to_branch ps ss ts).isOk = false := by
  rcases h with hs | hp | ht
  · unfold map_id_to_branch
    cases h1 : _place_subs (ps.map fun p => (p.id, p.parent_id)) with
    | error e => rfl
    | ok projAtt =>
      cases h2 : attachSections (ps.map fun p => p.id) ss with
      | error e => rfl
      | ok sectAtt =>
        have := attachSections_err hs
        rw [h2] at this
        cases this
  · rcases hp with ⟨p, hmem, pid, hpid, hnot⟩
    unfold map_id_to_branch
    cases h1 : _place_subs (ps.map fun p => (p.id, p.parent_id)) with
    | error e => rfl
    | ok projAtt =>
      have herr : (_place_subs (ps.map fun p => (p.id, p.parent_id))).isOk = false := by
        apply place_subs_err
        refine ⟨(p.id, p.parent_id), List.mem_map.2 ⟨p, hmem, rfl⟩, pid, hpid, ?_⟩
        simpa [List.map_map, Function.comp] using hnot
      rw [h1] at herr
      cases herr
  · rcases ht with ⟨t, hmem, pid, hpid, hnot⟩
    unfold map_id_to_branch
    cases h1 : _place_subs (ps.map fun p => (p.id, p.parent_id)) with
    | error e => rfl
    | ok projAtt =>
      cases h2 : attachSections (ps.map fun p => p.id) ss with
      | error e => rfl
      | ok sectAtt =>
        cases h3 : _place_subs (ts.map fun t => (t.id, t.parent_id)) with
        | error e => rfl
        | ok taskAtt =>
          have herr : (_place_subs (ts.map fun t => (t.id, t.parent_id))).isOk = false := by
            apply place_subs_err
            refine ⟨(t.id, t.parent_id), List.mem_map.2 ⟨t, hmem, rfl⟩, pid, hpid, ?_⟩
            simpa [List.map_map, Function.comp] using hnot
          rw [h3] at herr
          cases herr

/-- Witness for C6: a batch whose only section names a project id ("nope")
that no project in the batch carries makes construction fail. -/
theorem claim_C6_witness : (map_id_to_branch [] [secOrphan] []).isOk = false :=
  claim_C6_construction_fails [] [secOrphan] []
    (Or.inl ⟨secOrphan, List.mem_cons_self _ _, by simp⟩)

/-- C5 counterexample: two tasks naming each other as parent (a parent cycle
that never reaches a root) do NOT make forest construction fail — the claim
states construction fails with an error, but `map_id_to_branch` returns a
node mapping, because `_place_subs` resolves each parent id against the full
id map rather than the already-attached set. -/
theorem claim_C5_counterexample :
    (map_id_to_branch [] [] [taskCycA, taskCycB]).isOk = true := rfl

/-- C5 amended: on a batch whose parent references form a cycle among ids
that all exist in the batch, construction succeeds and returns a mapping in
which each cycle member is recorded as a child of the other (a cyclic node
structure); construction only fails when a parent id is absent from the
batch. -/
theorem claim_C5_amended :
    ∃ f, map_id_to_branch [] [] [taskCycA, taskCycB] = .ok f
      ∧ f.childrenOf "cb" = ["ca"] ∧ f.childrenOf "ca" = ["cb"] := by
  refine ⟨{ nodeEntries := [("ca", .task taskCycA), ("cb", .task taskCycB)],
            attachments := [("cb", "ca"), ("ca", "cb")] }, rfl, rfl, rfl⟩

/-- C2: the code contradicts its own priority table.  `_node_sort_key`'s
docstring and the spec give subproject children the lowest rank, but the
reachable code raises ValueError on a Project node, so sorting the children
of a node that has a subproject child fails instead of succeeding: on the
batch {project "r" named "Root -x", subproject "u"} with suffix "-x",
`select_all` propagates the ValueError. -/
theorem claim_C2_subproject_sort_raises :
    _node_sort_key (NodeData.proj prjSub) = .error "Unexpected node type"
    ∧ (map_id_to_branch [prjRoot, prjSub] [] []).bind
        (fun f => select_all [prjRoot, prjSub] [] [] f "-x".data 5)
        = .error "Unexpected node type" := ⟨rfl, rfl⟩

/-- C7 counterexample: with display text " x" and suffix " x" the claim's
predicate (trailing whitespace trimmed, then endswith) holds, but the code is
not a marker: `strip()` removes the leading space as well, and "x" does not
end with " x". -/
theorem claim_C7_counterexample :
    _has_suffix (NodeData.task taskWs) " x".data = false
    ∧ specHasSuffix (NodeData.task taskWs) " x".data = true := ⟨rfl, rfl⟩

/-- C7 amended: an entity is a marker iff its display text with BOTH leading
and trailing whitespace trimmed ends with the exact configured suffix;
matching is case-sensitive and exact, and the trimmed text is not otherwise
altered (the suffix must literally terminate it). -/
theorem claim_C7_amended (elem : NodeData) (sfx : List Char) :
    _has_suffix elem sfx = true ↔
      ∃ pre, stripChars (displayText elem) = pre ++ sfx := by
  have h : ∀ l : List Char,
      (endswith (stripChars l) sfx = true ↔ ∃ pre, stripChars l = pre ++ sfx) := by
    intro l
    rw [endswith, List.isSuffixOf_iff_suffix]
    constructor
    · rintro ⟨t, ht⟩
      exact ⟨t, ht.symm⟩
    · rintro ⟨t, ht⟩
      exact ⟨t, ht.symm⟩
  cases elem with
  | proj p => exact h p.name
  | sect s => exact h s.name
  | task t => exact h t.content

/-- C9: `add_child` fails exactly when the node's children have already been
sorted; a successful `_sort_children` leaves the node in a state where
sorting again returns the cached state unchanged (sorting happens at most
once) and where any further `add_child` fails. -/
theorem claim_C9_sealed_after_sort (f : Forest) (n : NodeMut) (c : String) :
    (add_child n c).isOk = !n.areChildrenSorted
    ∧ (∀ n', _sort_children f n = .ok n' →
        _sort_children f n' = .ok n' ∧ (add_child n' c).isOk = false) := by
  constructor
  · cases h : n.areChildrenSorted <;>
      simp [add_child, h, Except.isOk, Except.toBool]
  · intro n' hok
    cases hs : n.areChildrenSorted with
    | true =>
      rw [_sort_children, if_pos hs] at hok
      cases hok
      refine ⟨by rw [_sort_children, if_pos hs], ?_⟩
      simp [add_child, hs, Except.isOk, Except.toBool]
    | false =>
      rw [_sort_children, if_neg (by simp [hs])] at hok
      cases hsc : sortChildren f n.childIds with
      | error e => rw [hsc] at hok; cases hok
      | ok cs =>
        rw [hsc] at hok
        cases hok
        exact ⟨rfl, rfl⟩

/-- Witness for C9: sorting a fresh childless node succeeds and seals it, and
appending to the sealed node fails. -/
theorem claim_C9_witness :
    _sort_children emptyForest { childIds := [], areChildrenSorted := false }
        = .ok { childIds := [], areChildrenSorted := true }
    ∧ (add_child { childIds := [], areChildrenSorted := true } "x").isOk = false :=
  ⟨rfl,
    ((claim_C9_sealed_after_sort emptyForest
        { childIds := [], areChildrenSorted := false } "x").2
      { childIds := [], areChildrenSorted := true } rfl).2⟩

/-- C3: serial pick.  On project P (order 0, name "Inbox --") with direct
childless tasks A (order 0, "first") and B (order 1, "second"), selecting
Serial with suffix "--" yields toMark = [A] (only the first childless task in
post-order) and toClear = [B]; and a marker whose subtree has no childless
task selects nothing. -/
theorem claim_C3_serial_pick :
    (map_id_to_branch [prjInbox] [] [taskFirst, taskSecond]).bind
        (fun f => select_serial [prjInbox] [] [taskFirst, taskSecond] f "--".data 5)
      = .ok ([taskFirst], [taskSecond])
    ∧ (map_id_to_branch [prjEmpty] [] []).bind
        (fun f => select_serial [prjEmpty] [] [] f "--".data 5)
      = .ok ([], []) := ⟨rfl, rfl⟩

/-- C4: parallel pick with nesting.  Project P ("Inbox -a") contains section
S (order 0) containing tasks C (order 0) and D (order 1), and D has a child
task E.  Selecting Parallel with suffix "-a" yields toMark = [C, E]: D has a
child and is excluded, E is childless and included. -/
theorem claim_C4_parallel_pick :
    (map_id_to_branch [prjInboxA] [secS] [taskC, taskD, taskE]).bind
        (fun f => select_parallel [prjInboxA] [secS] [taskC, taskD, taskE] f "-a".data 5)
      = .ok ([taskC, taskE], [taskD]) := rfl

/-! Sorting facts. -/

/-- Membership through stable insertion. -/
theorem insertKeyed_mem {x y : String × (Int × Int)} {l : List (String × (Int × Int))} :
    y ∈ insertKeyed x l ↔ y = x ∨ y ∈ l := by
  induction l with
  | nil => simp [insertKeyed]
  | cons z zs ih =>
    simp only [insertKeyed]
    split
    · simp only [List.mem_cons, ih]
      tauto
    · simp only [List.mem_cons]

/-- Membership through the stable sort. -/
theorem sortKeyed_mem {y : String × (Int × Int)} {l : List (String × (Int × Int))} :
    y ∈ sortKeyed l ↔ y ∈ l := by
  induction l with
  | nil => simp [sortKeyed]
  | cons z zs ih =>
    simp only [sortKeyed, insertKeyed_mem, ih, List.mem_cons]

/-- Stable insertion adds one element. -/
theorem insertKeyed_length (x : String × (Int × Int)) (l : List (String × (Int × Int))) :
    (insertKeyed x l).length = l.length + 1 := by
  induction l with
  | nil => rfl
  | cons z zs ih =>
    simp only [insertKeyed]
    split
    · simp [ih]
    · simp

/-- The stable sort preserves length. -/
theorem sortKeyed_length (l : List (String × (Int × Int))) :
    (sortKeyed l).length = l.length := by
  induction l with
  | nil => rfl
  | cons z zs ih => simp [sortKeyed, insertKeyed_length, ih]

/-- Successful keying preserves length and draws its ids from the input. -/
theorem keyChildren_shape {f : Forest} :
    ∀ {ids : List String} {ks}, keyChildren f ids = .ok ks →
      ks.length = ids.length ∧ ∀ e ∈ ks, e.1 ∈ ids := by
  intro ids
  induction ids with
  | nil =>
    intro ks h
    cases h
    exact ⟨rfl, by intro e he; cases he⟩
  | cons i rest ih =>
    intro ks h
    simp only [keyChildren] at h
    cases hd : f.getData i with
    | none => rw [hd] at h; cases h
    | some d =>
      rw [hd] at h
      simp only [] at h
      cases hk : _node_sort_key d with
      | error e => rw [hk] at h; cases h
      | ok k =>
        rw [hk] at h
        simp only [] at h
        cases hr : keyChildren f rest with
        | error e => rw [hr] at h; cases h
        | ok ks' =>
          rw [hr] at h
          simp only [] at h
          cases h
          rcases ih hr with ⟨hlen, hmem⟩
          refine ⟨by simp [hlen], ?_⟩
          intro e he
          rcases List.mem_cons.1 he with h1 | h1
          · subst h1; exact List.mem_cons_self _ _
          · exact List.mem_cons_of_mem _ (hmem e h1)

/-- A successfully sorted child list contains only input ids. -/
theorem sortChildren_mem {f : Forest} {ids cs : List String}
    (h : sortChildren f ids = .ok cs) : ∀ c ∈ cs, c ∈ ids := by
  unfold sortChildren at h
  cases hk : keyChildren f ids with
  | error e => rw [hk] at h; cases h
  | ok ks =>
    rw [hk] at h
    cases h
    intro c hc
    rcases List.mem_map.1 hc with ⟨e, he, rfl⟩
    exact (keyChildren_shape hk).2 e (sortKeyed_mem.1 he)

/-- A successfully sorted child list is empty exactly when the input was. -/
theorem sortChildren_nil {f : Forest} {ids : List String}
    (h : sortChildren f ids = .ok []) : ids = [] := by
  unfold sortChildren at h
  cases hk : keyChildren f ids with
  | error e => rw [hk] at h; cases h
  | ok ks =>
    rw [hk] at h
    injection h with h'
    have h1 : sortKeyed ks = [] := List.map_eq_nil_iff.1 h'
    have h2 : ks.length = 0 := by rw [← sortKeyed_length ks, h1]; rfl
    have h3 : ids.length = 0 := by rw [← (keyChildren_shape hk).1]; exact h2
    exact List.length_eq_zero.1 h3

/-! Generic facts about child-list traversal. -/

/-- A task collected over a child list comes from one child's successful
run. -/
theorem iterList_mem {g : String → Except String (List Task)} :
    ∀ {cs : List String} {L : List Task} {t : Task},
      iterList g cs = .ok L → t ∈ L → ∃ c ∈ cs, ∃ L', g c = .ok L' ∧ t ∈ L' := by
  intro cs
  induction cs with
  | nil =>
    intro L t h ht
    cases h
    cases ht
  | cons c cs ih =>
    intro L t h ht
    simp only [iterList] at h
    cases h1 : g c with
    | error e => rw [h1] at h; cases h
    | ok ts1 =>
      rw [h1] at h
      simp only [] at h
      cases h2 : iterList g cs with
      | error e => rw [h2] at h; cases h
      | ok ts2 =>
        rw [h2] at h
        simp only [] at h
        cases h
        rcases List.mem_append.1 ht with hm | hm
        · exact ⟨c, List.mem_cons_self _ _, ts1, h1, hm⟩
        · rcases ih h2 hm with ⟨c', hc', L', hg, hL⟩
          exact ⟨c', List.mem_cons_of_mem _ hc', L', hg, hL⟩

/-- Pointwise inclusion of runs lifts to child-list traversal. -/
theorem iterList_subset {g g' : String → Except String (List Task)}
    (hsub : ∀ c L L', g c = .ok L → g' c = .ok L' → L ⊆ L') :
    ∀ {cs : List String} {M M' : List Task},
      iterList g cs = .ok M → iterList g' cs = .ok M' → M ⊆ M' := by
  intro cs
  induction cs with
  | nil =>
    intro M M' h h'
    cases h
    cases h'
    exact fun x hx => hx
  | cons c cs ih =>
    intro M M' h h'
    simp only [iterList] at h h'
    cases h1 : g c with
    | error e => rw [h1] at h; cases h
    | ok L =>
      rw [h1] at h
      simp only [] at h
      cases h2 : iterList g cs with
      | error e => rw [h2] at h; cases h
      | ok M0 =>
        rw [h2] at h
        simp only [] at h
        cases h
        cases h1' : g' c with
        | error e => rw [h1'] at h'; cases h'
        | ok L' =>
          rw [h1'] at h'
          simp only [] at h'
          cases h2' : iterList g' cs with
          | error e => rw [h2'] at h'; cases h'
          | ok M0' =>
            rw [h2'] at h'
            simp only [] at h'
            cases h'
            intro x hx
            rcases List.mem_append.1 hx with hm | hm
            · exact List.mem_append.2 (Or.inl (hsub c L L' h1 h1' hm))
            · exact List.mem_append.2 (Or.inr (ih h2 h2' hm))

/-- A first-yield found over a child list comes from one child's successful
run. -/
theorem firstAux_mem {g : String → Except String (Option Task)} :
    ∀ {cs : List String} {t : Task},
      firstAux g cs = .ok (some t) → ∃ c ∈ cs, g c = .ok (some t) := by
  intro cs
  induction cs with
  | nil => intro t h; cases h
  | cons c cs ih =>
    intro t h
    simp only [firstAux] at h
    cases h1 : g c with
    | error e => rw [h1] at h; cases h
    | ok r =>
      rw [h1] at h
      cases r with
      | some t0 =>
        simp only [] at h
        cases h
        exact ⟨c, List.mem_cons_self _ _, h1⟩
      | none =>
        simp only [] at h
        rcases ih h with ⟨c', hc', hg⟩
        exact ⟨c', List.mem_cons_of_mem _ hc', hg⟩

/-- If each child's first yield lies in that child's exhaustive run, a first
yield over the child list lies in the concatenated exhaustive run. -/
theorem firstAux_mem_iterList {g : String → Except String (Option Task)}
    {g' : String → Except String (List Task)}
    (hpt : ∀ c t L, g c = .ok (some t) → g' c = .ok L → t ∈ L) :
    ∀ {cs : List String} {t : Task} {M : List Task},
      firstAux g cs = .ok (some t) → iterList g' cs = .ok M → t ∈ M := by
  intro cs
  induction cs with
  | nil => intro t M h _; cases h
  | cons c cs ih =>
    intro t M h h'
    simp only [firstAux] at h
    simp only [iterList] at h'
    cases h1' : g' c with
    | error e => rw [h1'] at h'; cases h'
    | ok L =>
      rw [h1'] at h'
      simp only [] at h'
      cases h2' : iterList g' cs with
      | error e => rw [h2'] at h'; cases h'
      | ok M0 =>
        rw [h2'] at h'
        simp only [] at h'
        cases h'
        cases h1 : g c with
        | error e => rw [h1] at h; cases h
        | ok r =>
          rw [h1] at h
          cases r with
          | some t0 =>
            simp only [] at h
            cases h
            exact List.mem_append.2 (Or.inl (hpt c t L h1 h1'))
          | none =>
            simp only [] at h
            exact List.mem_append.2 (Or.inr (ih h h2'))

/-- Concatenation respects inclusion componentwise. -/
theorem append_subset_append {l1 l2 l1' l2' : List Task}
    (h1 : l1 ⊆ l1') (h2 : l2 ⊆ l2') : l1 ++ l2 ⊆ l1' ++ l2' := by
  intro x hx
  rcases List.mem_append.1 hx with h | h
  · exact List.mem_append.2 (Or.inl (h1 h))
  · exact List.mem_append.2 (Or.inr (h2 h))

/-! Membership lemmas for the traversals. -/

/-- Every task yielded by `iter_tasks` is the data of some node of the
forest. -/
theorem iter_tasks_mem (f : Forest) :
    ∀ (fuel : Nat) {i : String} {L : List Task} {t : Task},
      iter_tasks f fuel i = .ok L → t ∈ L → ∃ j, f.getData j = some (.task t) := by
  intro fuel
  induction fuel with
  | zero => intro i L t h _; cases h
  | succ n ih =>
    intro i L t h ht
    simp only [iter_tasks] at h
    cases hd : f.getData i with
    | none => rw [hd] at h; cases h
    | some d =>
      rw [hd] at h
      simp only [] at h
      cases hsc : sortChildren f (f.childrenOf i) with
      | error e => rw [hsc] at h; cases h
      | ok cs =>
        rw [hsc] at h
        simp only [] at h
        cases hil : iterList (iter_tasks f n) cs with
        | error e => rw [hil] at h; cases h
        | ok tss =>
          rw [hil] at h
          simp only [] at h
          cases h
          rcases List.mem_append.1 ht with h1 | h1
          · rcases iterList_mem hil h1 with ⟨c, _, L', hg, hL⟩
            exact ih hg hL
          · cases d with
            | task t0 =>
              have := List.mem_singleton.1 h1
              subst this
              exact ⟨i, hd⟩
            | proj p => cases h1
            | sect s => cases h1

/-- Every task yielded by `iter_childless_tasks` is the data of some node of
the forest whose child list is empty. -/
theorem iter_childless_mem (f : Forest) :
    ∀ (fuel : Nat) {i : String} {L : List Task} {t : Task},
      iter_childless_tasks f fuel i = .ok L → t ∈ L →
        ∃ j, f.getData j = some (.task t) ∧ f.childrenOf j = [] := by
  intro fuel
  induction fuel with
  | zero => intro i L t h _; cases h
  | succ n ih =>
    intro i L t h ht
    simp only [iter_childless_tasks] at h
    cases hd : f.getData i with
    | none => rw [hd] at h; cases h
    | some d =>
      rw [hd] at h
      simp only [] at h
      cases hsc : sortChildren f (f.childrenOf i) with
      | error e => rw [hsc] at h; cases h
      | ok cs =>
        rw [hsc] at h
        simp only [] at h
        cases hil : iterList (iter_childless_tasks f n) cs with
        | error e => rw [hil] at h; cases h
        | ok tss =>
          rw [hil] at h
          simp only [] at h
          cases h
          rcases List.mem_append.1 ht with h1 | h1
          · rcases iterList_mem hil h1 with ⟨c, _, L', hg, hL⟩
            exact ih hg hL
          · cases d with
            | task t0 =>
              cases cs with
              | nil =>
                have := List.mem_singleton.1 h1
                subst this
                exact ⟨i, hd, sortChildren_nil hsc⟩
              | cons c0 cs0 => cases h1
            | proj p => cases h1
            | sect s => cases h1

/-- The first yield of `select_serial`'s generator is the data of some node
of the forest whose child list is empty. -/
theorem firstChildless_mem (f : Forest) :
    ∀ (fuel : Nat) {i : String} {t : Task},
      firstChildless f fuel i = .ok (some t) →
        ∃ j, f.getData j = some (.task t) ∧ f.childrenOf j = [] := by
  intro fuel
  induction fuel with
  | zero => intro i t h; cases h
  | succ n ih =>
    intro i t h
    simp only [firstChildless] at h
    cases hd : f.getData i with
    | none => rw [hd] at h; cases h
    | some d =>
      rw [hd] at h
      simp only [] at h
      cases hsc : sortChildren f (f.childrenOf i) with
      | error e => rw [hsc] at h; cases h
      | ok cs =>
        rw [hsc] at h
        simp only [] at h
        cases hfa : firstAux (firstChildless f n) cs with
        | error e => rw [hfa] at h; cases h
        | ok r =>
          rw [hfa] at h
          cases r with
          | some t0 =>
            simp only [] at h
            cases h
            rcases firstAux_mem hfa with ⟨c, _, hg⟩
            exact ih hg
          | none =>
            simp only [] at h
            cases d with
            | task t0 =>
              cases cs with
              | nil =>
                cases h
                exact ⟨i, hd, sortChildren_nil hsc⟩
              | cons c0 cs0 => cases h
            | proj p => cases h
            | sect s => cases h

/-- C8 engine, node level: a childless-task run is contained in the full-task
run of the same node at the same fuel. -/
theorem iter_childless_subset (f : Forest) :
    ∀ (fuel : Nat) {i : String} {L L' : List Task},
      iter_childless_tasks f fuel i = .ok L → iter_tasks f fuel i = .ok L' →
        L ⊆ L' := by
  intro fuel
  induction fuel with
  | zero => intro i L L' h _; cases h
  | succ n ih =>
    intro i L L' h h'
    simp only [iter_childless_tasks] at h
    simp only [iter_tasks] at h'
    cases hd : f.getData i with
    | none => rw [hd] at h; cases h
    | some d =>
      rw [hd] at h h'
      simp only [] at h h'
      cases hsc : sortChildren f (f.childrenOf i) with
      | error e => rw [hsc] at h; cases h
      | ok cs =>
        rw [hsc] at h h'
        simp only [] at h h'
        cases hil : iterList (iter_childless_tasks f n) cs with
        | error e => rw [hil] at h; cases h
        | ok tss =>
          rw [hil] at h
          simp only [] at h
          cases hil' : iterList (iter_tasks f n) cs with
          | error e => rw [hil'] at h'; cases h'
          | ok tss' =>
            rw [hil'] at h'
            simp only [] at h'
            cases h
            cases h'
            refine append_subset_append
              (iterList_subset (fun c a b ha hb => ih ha hb) hil hil') ?_
            cases d with
            | task t0 =>
              cases cs with
              | nil => exact fun x hx => hx
              | cons c0 cs0 => intro x hx; cases hx
            | proj p => intro x hx; cases hx
            | sect s => intro x hx; cases hx

/-- C8 engine, node level: the serial first yield of a node belongs to the
childless-task run of the same node at the same fuel. -/
theorem firstChildless_mem_run (f : Forest) :
    ∀ (fuel : Nat) {i : String} {t : Task} {L : List Task},
      firstChildless f fuel i = .ok (some t) →
      iter_childless_tasks f fuel i = .ok L → t ∈ L := by
  intro fuel
  induction fuel with
  | zero => intro i t L h _; cases h
  | succ n ih =>
    intro i t L h h'
    simp only [firstChildless] at h
    simp only [iter_childless_tasks] at h'
    cases hd : f.getData i with
    | none => rw [hd] at h; cases h
    | some d =>
      rw [hd] at h h'
      simp only [] at h h'
      cases hsc : sortChildren f (f.childrenOf i) with
      | error e => rw [hsc] at h; cases h
      | ok cs =>
        rw [hsc] at h h'
        simp only [] at h h'
        cases hil : iterList (iter_childless_tasks f n) cs with
        | error e => rw [hil] at h'; cases h'
        | ok tss =>
          rw [hil] at h'
          simp only [] at h'
          cases h'
          cases hfa : firstAux (firstChildless f n) cs with
          | error e => rw [hfa] at h; cases h
          | ok r =>
            rw [hfa] at h
            cases r with
            | some t0 =>
              simp only [] at h
              cases h
              exact List.mem_append.2
                (Or.inl (firstAux_mem_iterList (fun c a b ha hb => ih ha hb) hfa hil))
            | none =>
              simp only [] at h
              cases d with
              | task t0 =>
                cases cs with
                | nil =>
                  cases h
                  exact List.mem_append.2 (Or.inr (List.mem_singleton.2 rfl))
                | cons c0 cs0 => cases h
              | proj p => cases h
              | sect s => cases h

/-- A node holding a task always yields that task last in its own successful
`iter_tasks` run. -/
theorem iter_tasks_self {f : Forest} {i : String} {t : Task} :
    ∀ {fuel : Nat} {L : List Task}, f.getData i = some (.task t) →
      iter_tasks f fuel i = .ok L → t ∈ L := by
  intro fuel L hd h
  cases fuel with
  | zero => cases h
  | succ n =>
    simp only [iter_tasks, hd] at h
    cases hsc : sortChildren f (f.childrenOf i) with
    | error e => rw [hsc] at h; cases h
    | ok cs =>
      rw [hsc] at h
      simp only [] at h
      cases hil : iterList (iter_tasks f n) cs with
      | error e => rw [hil] at h; cases h
      | ok tss =>
        rw [hil] at h
        simp only [] at h
        cases h
        exact List.mem_append.2 (Or.inr (List.mem_singleton.2 rfl))

/-- A childless task node's serial first yield is itself. -/
theorem firstChildless_self {f : Forest} {i : String} {t : Task} (n : Nat)
    (hd : f.getData i = some (.task t)) (hch : f.childrenOf i = []) :
    firstChildless f (n + 1) i = .ok (some t) := by
  simp only [firstChildless, hd, hch]
  rfl

/-- A childless task node's exhaustive childless run is exactly itself. -/
theorem iter_childless_self {f : Forest} {i : String} {t : Task} (n : Nat)
    (hd : f.getData i = some (.task t)) (hch : f.childrenOf i = []) :
    iter_childless_tasks f (n + 1) i = .ok [t] := by
  simp only [iter_childless_tasks, hd, hch]
  rfl

/-! Facts about the insertion-ordered `selected` dict. -/

/-- An entry of `dictInsert acc t` is an old entry or carries key `t.id` and
value `t`. -/
theorem dictInsert_cases {acc : List (String × Task)} {t : Task} {e : String × Task}
    (h : e ∈ dictInsert acc t) : e ∈ acc ∨ (e.1 = t.id ∧ e.2 = t) := by
  unfold dictInsert at h
  split at h
  · rcases List.mem_map.1 h with ⟨e', he', heq⟩
    by_cases hb : (e'.1 == t.id) = true
    · rw [if_pos hb] at heq
      subst heq
      exact Or.inr ⟨eq_of_beq hb, rfl⟩
    · rw [if_neg hb] at heq
      subst heq
      exact Or.inl he'
  · rcases List.mem_append.1 h with h1 | h1
    · exact Or.inl h1
    · have := List.mem_singleton.1 h1
      subst this
      exact Or.inr ⟨rfl, rfl⟩

/-- The keys after `dictInsert` are the old keys plus `t.id`. -/
theorem dictInsert_keys (acc : List (String × Task)) (t : Task) (k : String) :
    k ∈ (dictInsert acc t).map (fun e => e.1) ↔
      (k ∈ acc.map (fun e => e.1) ∨ k = t.id) := by
  unfold dictInsert
  split
  · rename_i hany
    have hkeys : ((acc.map (fun e => if e.1 == t.id then (e.1, t) else e)).map
          (fun e => e.1)) = acc.map (fun e => e.1) := by
      rw [List.map_map]
      apply List.map_congr_left
      intro e _
      by_cases hb : (e.1 == t.id) = true <;> simp [hb, Function.comp]
    rw [hkeys]
    constructor
    · exact Or.inl
    · rintro (h | h)
      · exact h
      · subst h
        rcases List.any_eq_true.1 hany with ⟨e, he, hbe⟩
        exact List.mem_map.2 ⟨e, he, eq_of_beq hbe⟩
  · simp [List.mem_append]

/-- An entry after inserting a run of tasks is an old entry or comes from the
run. -/
theorem dictInsertAll_cases :
    ∀ (l : List Task) (acc : List (String × Task)) (e : String × Task),
      e ∈ dictInsertAll acc l → e ∈ acc ∨ ∃ t ∈ l, e.1 = t.id ∧ e.2 = t := by
  intro l
  induction l with
  | nil => intro acc e h; exact Or.inl h
  | cons t rest ih =>
    intro acc e h
    rcases ih (dictInsert acc t) e h with h1 | h1
    · rcases dictInsert_cases h1 with h2 | h2
      · exact Or.inl h2
      · exact Or.inr ⟨t, List.mem_cons_self _ _, h2⟩
    · rcases h1 with ⟨t', ht', he⟩
      exact Or.inr ⟨t', List.mem_cons_of_mem _ ht', he⟩

/-- The keys after inserting a run are the old keys plus the run's ids. -/
theorem dictInsertAll_keys (l : List Task) :
    ∀ (acc : List (String × Task)) (k : String),
      k ∈ (dictInsertAll acc l).map (fun e => e.1) ↔
        (k ∈ acc.map (fun e => e.1) ∨ ∃ t ∈ l, t.id = k) := by
  induction l with
  | nil =>
    intro acc k
    simp [dictInsertAll]
  | cons t rest ih =>
    intro acc k
    simp only [dictInsertAll]
    rw [ih, dictInsert_keys]
    constructor
    · rintro ((h | h) | h)
      · exact Or.inl h
      · exact Or.inr ⟨t, List.mem_cons_self _ _, h.symm⟩
      · rcases h with ⟨t', ht', hk⟩
        exact Or.inr ⟨t', List.mem_cons_of_mem _ ht', hk⟩
    · rintro (h | h)
      · exact Or.inl (Or.inl h)
      · rcases h with ⟨t', ht', hk⟩
        rcases List.mem_cons.1 ht' with h2 | h2
        · subst h2
          exact Or.inl (Or.inr hk.symm)
        · exact Or.inr ⟨t', h2, hk⟩

/-! Facts about the marker loops. -/

/-- Entry invariant of the serial marker loop: every recorded entry keys a
value by its id, and every recorded value satisfies any property of the
per-marker first yields. -/
theorem serialFold_entries {f : Forest} {fuel : Nat} (Q : Task → Prop)
    (hy : ∀ i t, firstChildless f fuel i = .ok (some t) → Q t) :
    ∀ {ms : List NodeData} {acc res : List (String × Task)},
      serialFold f fuel ms acc = .ok res →
      (∀ e ∈ acc, e.1 = e.2.id ∧ Q e.2) → ∀ e ∈ res, e.1 = e.2.id ∧ Q e.2 := by
  intro ms
  induction ms with
  | nil =>
    intro acc res h hacc
    cases h
    exact hacc
  | cons d ms ih =>
    intro acc res h hacc
    simp only [serialFold] at h
    cases h1 : firstChildless f fuel (dataId d) with
    | error e => rw [h1] at h; cases h
    | ok r =>
      rw [h1] at h
      cases r with
      | none =>
        simp only [] at h
        exact ih h hacc
      | some t =>
        simp only [] at h
        refine ih h ?_
        intro e he
        rcases dictInsert_cases he with h2 | h2
        · exact hacc e h2
        · exact ⟨by rw [h2.2]; exact h2.1, by rw [h2.2]; exact hy _ t h1⟩

/-- Keys only grow along the serial marker loop. -/
theorem serialFold_keys_mono {f : Forest} {fuel : Nat} :
    ∀ {ms : List NodeData} {acc res : List (String × Task)},
      serialFold f fuel ms acc = .ok res →
      ∀ k, k ∈ acc.map (fun e => e.1) → k ∈ res.map (fun e => e.1) := by
  intro ms
  induction ms with
  | nil =>
    intro acc res h k hk
    cases h
    exact hk
  | cons d ms ih =>
    intro acc res h k hk
    simp only [serialFold] at h
    cases h1 : firstChildless f fuel (dataId d) with
    | error e => rw [h1] at h; cases h
    | ok r =>
      rw [h1] at h
      cases r with
      | none =>
        simp only [] at h
        exact ih h k hk
      | some t =>
        simp only [] at h
        exact ih h k ((dictInsert_keys acc t k).2 (Or.inl hk))

/-- A marker whose first yield is `t` contributes `t.id` to the serial
result. -/
theorem serialFold_contrib {f : Forest} {fuel : Nat} :
    ∀ {ms : List NodeData} {acc res : List (String × Task)} {d : NodeData} {t : Task},
      serialFold f fuel ms acc = .ok res → d ∈ ms →
      firstChildless f fuel (dataId d) = .ok (some t) →
      t.id ∈ res.map (fun e => e.1) := by
  intro ms
  induction ms with
  | nil =>
    intro acc res d t _ hd _
    cases hd
  | cons d0 ms ih =>
    intro acc res d t h hd hfc
    simp only [serialFold] at h
    rcases List.mem_cons.1 hd with h0 | h0
    · subst h0
      rw [hfc] at h
      simp only [] at h
      exact serialFold_keys_mono h t.id ((dictInsert_keys acc t t.id).2 (Or.inr rfl))
    · cases h1 : firstChildless f fuel (dataId d0) with
      | error e => rw [h1] at h; cases h
      | ok r =>
        rw [h1] at h
        cases r with
        | none =>
          simp only [] at h
          exact ih h h0 hfc
        | some t0 =>
          simp only [] at h
          exact ih h h0 hfc

/-- A successful serial marker loop ran each marker's generator
successfully. -/
theorem serialFold_ok {f : Forest} {fuel : Nat} :
    ∀ {ms : List NodeData} {acc res : List (String × Task)},
      serialFold f fuel ms acc = .ok res →
      ∀ d ∈ ms, ∃ r, firstChildless f fuel (dataId d) = .ok r := by
  intro ms
  induction ms with
  | nil =>
    intro acc res _ d hd
    cases hd
  | cons d0 ms ih =>
    intro acc res h d hd
    simp only [serialFold] at h
    cases h1 : firstChildless f fuel (dataId d0) with
    | error e => rw [h1] at h; cases h
    | ok r =>
      rw [h1] at h
      rcases List.mem_cons.1 hd with h0 | h0
      · subst h0
        exact ⟨r, h1⟩
      · cases r with
        | none =>
          simp only [] at h
          exact ih h d h0
        | some t =>
          simp only [] at h
          exact ih h d h0

/-- Entry invariant of the collecting marker loop. -/
theorem collectFold_entries {collect : String → Except String (List Task)} (Q : Task → Prop)
    (hy : ∀ i t L, collect i = .ok L → t ∈ L → Q t) :
    ∀ {ms : List NodeData} {acc res : List (String × Task)},
      collectFold collect ms acc = .ok res →
      (∀ e ∈ acc, e.1 = e.2.id ∧ Q e.2) → ∀ e ∈ res, e.1 = e.2.id ∧ Q e.2 := by
  intro ms
  induction ms with
  | nil =>
    intro acc res h hacc
    cases h
    exact hacc
  | cons d ms ih =>
    intro acc res h hacc
    simp only [collectFold] at h
    cases h1 : collect (dataId d) with
    | error e => rw [h1] at h; cases h
    | ok l =>
      rw [h1] at h
      simp only [] at h
      refine ih h ?_
      intro e he
      rcases dictInsertAll_cases l acc e he with h2 | h2
      · exact hacc e h2
      · rcases h2 with ⟨t, ht, hk, hv⟩
        exact ⟨by rw [hv]; exact hk, by rw [hv]; exact hy _ t l h1 ht⟩

/-- Keys only grow along the collecting marker loop. -/
theorem collectFold_keys_mono {collect : String → Except String (List Task)} :
    ∀ {ms : List NodeData} {acc res : List (String × Task)},
      collectFold collect ms acc = .ok res →
      ∀ k, k ∈ acc.map (fun e => e.1) → k ∈ res.map (fun e => e.1) := by
  intro ms
  induction ms with
  | nil =>
    intro acc res h k hk
    cases h
    exact hk
  | cons d ms ih =>
    intro acc res h k hk
    simp only [collectFold] at h
    cases h1 : collect (dataId d) with
    | error e => rw [h1] at h; cases h
    | ok l =>
      rw [h1] at h
      simp only [] at h
      exact ih h k ((dictInsertAll_keys l acc k).2 (Or.inl hk))

/-- A marker whose run yields `t` contributes `t.id` to the collecting
result. -/
theorem collectFold_contrib {collect : String → Except String (List Task)} :
    ∀ {ms : List NodeData} {acc res : List (String × Task)} {d : NodeData}
      {t : Task} {l : List Task},
      collectFold collect ms acc = .ok res → d ∈ ms →
      collect (dataId d) = .ok l → t ∈ l →
      t.id ∈ res.map (fun e => e.1) := by
  intro ms
  induction ms with
  | nil =>
    intro acc res d t l _ hd _ _
    cases hd
  | cons d0 ms ih =>
    intro acc res d t l h hd hcol ht
    simp only [collectFold] at h
    rcases List.mem_cons.1 hd with h0 | h0
    · subst h0
      rw [hcol] at h
      simp only [] at h
      exact collectFold_keys_mono h t.id ((dictInsertAll_keys l acc t.id).2
        (Or.inr ⟨t, ht, rfl⟩))
    · cases h1 : collect (dataId d0) with
      | error e => rw [h1] at h; cases h
      | ok l0 =>
        rw [h1] at h
        simp only [] at h
        exact ih h h0 hcol ht

/-- A successful collecting marker loop ran each marker's generator
successfully. -/
theorem collectFold_ok {collect : String → Except String (List Task)} :
    ∀ {ms : List NodeData} {acc res : List (String × Task)},
      collectFold collect ms acc = .ok res →
      ∀ d ∈ ms, ∃ l, collect (dataId d) = .ok l := by
  intro ms
  induction ms with
  | nil =>
    intro acc res _ d hd
    cases hd
  | cons d0 ms ih =>
    intro acc res h d hd
    simp only [collectFold] at h
    cases h1 : collect (dataId d0) with
    | error e => rw [h1] at h; cases h
    | ok l =>
      rw [h1] at h
      simp only [] at h
      rcases List.mem_cons.1 hd with h0 | h0
      · subst h0
        exact ⟨l, h1⟩
      · exact ih h d h0

/-- C8 engine, loop level: the serial keys are contained in the childless
keys when both loops succeed over the same markers. -/
theorem serialFold_keys_sub {f : Forest} {fuel : Nat}
    (hpt : ∀ i t L, firstChildless f fuel i = .ok (some t) →
        iter_childless_tasks f fuel i = .ok L → t ∈ L) :
    ∀ {ms : List NodeData} {acc1 acc2 r1 r2 : List (String × Task)},
      serialFold f fuel ms acc1 = .ok r1 →
      collectFold (iter_childless_tasks f fuel) ms acc2 = .ok r2 →
      (∀ k, k ∈ acc1.map (fun e => e.1) → k ∈ acc2.map (fun e => e.1)) →
      ∀ k, k ∈ r1.map (fun e => e.1) → k ∈ r2.map (fun e => e.1) := by
  intro ms
  induction ms with
  | nil =>
    intro acc1 acc2 r1 r2 h1 h2 hsub k
    cases h1
    cases h2
    exact hsub k
  | cons d ms ih =>
    intro acc1 acc2 r1 r2 h1 h2 hsub
    simp only [serialFold] at h1
    simp only [collectFold] at h2
    cases hc : iter_childless_tasks f fuel (dataId d) with
    | error e => rw [hc] at h2; cases h2
    | ok L =>
      rw [hc] at h2
      simp only [] at h2
      cases hf : firstChildless f fuel (dataId d) with
      | error e => rw [hf] at h1; cases h1
      | ok r =>
        rw [hf] at h1
        cases r with
        | none =>
          simp only [] at h1
          refine ih h1 h2 ?_
          intro k hk
          exact (dictInsertAll_keys L acc2 k).2 (Or.inl (hsub k hk))
        | some t =>
          simp only [] at h1
          refine ih h1 h2 ?_
          intro k hk
          rcases (dictInsert_keys acc1 t k).1 hk with hk1 | hk1
          · exact (dictInsertAll_keys L acc2 k).2 (Or.inl (hsub k hk1))
          · subst hk1
            exact (dictInsertAll_keys L acc2 t.id).2 (Or.inr ⟨t, hpt _ _ _ hf hc, rfl⟩)

/-- C8 engine, loop level: pointwise containment of runs lifts to the keys of
two collecting loops over the same markers. -/
theorem collectFold_keys_sub {c1 c2 : String → Except String (List Task)}
    (hsub : ∀ i L L', c1 i = .ok L → c2 i = .ok L' → L ⊆ L') :
    ∀ {ms : List NodeData} {acc1 acc2 r1 r2 : List (String × Task)},
      collectFold c1 ms acc1 = .ok r1 → collectFold c2 ms acc2 = .ok r2 →
      (∀ k, k ∈ acc1.map (fun e => e.1) → k ∈ acc2.map (fun e => e.1)) →
      ∀ k, k ∈ r1.map (fun e => e.1) → k ∈ r2.map (fun e => e.1) := by
  intro ms
  induction ms with
  | nil =>
    intro acc1 acc2 r1 r2 h1 h2 hsub0 k
    cases h1
    cases h2
    exact hsub0 k
  | cons d ms ih =>
    intro acc1 acc2 r1 r2 h1 h2 hsub0
    simp only [collectFold] at h1 h2
    cases hc1 : c1 (dataId d) with
    | error e => rw [hc1] at h1; cases h1
    | ok L1 =>
      rw [hc1] at h1
      simp only [] at h1
      cases hc2 : c2 (dataId d) with
      | error e => rw [hc2] at h2; cases h2
      | ok L2 =>
        rw [hc2] at h2
        simp only [] at h2
        refine ih h1 h2 ?_
        intro k hk
        rcases (dictInsertAll_keys L1 acc1 k).1 hk with hk1 | hk1
        · exact (dictInsertAll_keys L2 acc2 k).2 (Or.inl (hsub0 k hk1))
        · rcases hk1 with ⟨t, ht, hid⟩
          exact (dictInsertAll_keys L2 acc2 k).2
            (Or.inr ⟨t, hsub _ _ _ hc1 hc2 ht, hid⟩)

/-! Facts about built forests. -/

/-- A successful construction registers exactly the input models, projects
then sections then tasks. -/
theorem built_nodeEntries {ps : List Project} {ss : List Sec} {ts : List Task} {f : Forest}
    (h : map_id_to_branch ps ss ts = .ok f) :
    f.nodeEntries = ps.map (fun p => (p.id, NodeData.proj p))
      ++ ss.map (fun s => (s.id, NodeData.sect s))
      ++ ts.map (fun t => (t.id, NodeData.task t)) := by
  unfold map_id_to_branch at h
  cases h1 : _place_subs (ps.map fun p => (p.id, p.parent_id)) with
  | error e => rw [h1] at h; cases h
  | ok a1 =>
    rw [h1] at h
    simp only [] at h
    cases h2 : attachSections (ps.map fun p => p.id) ss with
    | error e => rw [h2] at h; cases h
    | ok a2 =>
      rw [h2] at h
      simp only [] at h
      cases h3 : _place_subs (ts.map fun t => (t.id, t.parent_id)) with
      | error e => rw [h3] at h; cases h
      | ok a3 =>
        rw [h3] at h
        simp only [] at h
        cases h4 : attachRootTasks (ps.map fun p => p.id) (ss.map fun s => s.id) ts with
        | error e => rw [h4] at h; cases h
        | ok a4 =>
          rw [h4] at h
          simp only [] at h
          cases h
          rfl

/-- In a built forest a task datum registered under any id is one of the
input tasks, registered under its own id. -/
theorem built_getData_task {ps : List Project} {ss : List Sec} {ts : List Task}
    {f : Forest} {j : String} {t : Task}
    (hmap : map_id_to_branch ps ss ts = .ok f)
    (h : f.getData j = some (.task t)) : t ∈ ts ∧ j = t.id := by
  have hmem : (j, NodeData.task t) ∈ f.nodeEntries := dictGet_mem h
  rw [built_nodeEntries hmap] at hmem
  rcases List.mem_append.1 hmem with h1 | h1
  · rcases List.mem_append.1 h1 with h2 | h2
    · rcases List.mem_map.1 h2 with ⟨p, _, heq⟩
      cases heq
    · rcases List.mem_map.1 h2 with ⟨s, _, heq⟩
      cases heq
  · rcases List.mem_map.1 h1 with ⟨t', ht', heq⟩
    have hid : t'.id = j := congrArg Prod.fst heq
    have hdata : NodeData.task t' = NodeData.task t := congrArg Prod.snd heq
    cases hdata
    exact ⟨ht', hid.symm⟩

/-- When no input task carries id `i`, the task block resolves nothing. -/
theorem dictGet_tasks_none {ts : List Task} {i : String}
    (h : i ∉ ts.map (fun t => t.id)) :
    dictGet (ts.map (fun t => (t.id, NodeData.task t))) i = none := by
  apply dictGet_none
  intro e he
  rcases List.mem_map.1 he with ⟨t', ht', heq⟩
  subst heq
  intro hc
  exact h (List.mem_map.2 ⟨t', ht', hc⟩)

/-- With pairwise distinct task ids, looking up a task's id in the task block
returns that task. -/
theorem dictGet_tasks_nodup {ts : List Task} {t : Task}
    (hnd : (ts.map (fun t => t.id)).Nodup) (ht : t ∈ ts) :
    dictGet (ts.map (fun t => (t.id, NodeData.task t))) t.id = some (.task t) := by
  induction ts with
  | nil => cases ht
  | cons t0 rest ih =>
    have hnd' := List.nodup_cons.1 hnd
    rcases List.mem_cons.1 ht with h0 | h0
    · subst h0
      have hnone : dictGet (rest.map (fun t => (t.id, NodeData.task t))) t.id = none :=
        dictGet_tasks_none hnd'.1
      show (match dictGet (rest.map (fun t => (t.id, NodeData.task t))) t.id with
        | some r => some r
        | none => if t.id = t.id then some (NodeData.task t) else none) = _
      rw [hnone]
      simp
    · have := ih hnd'.2 h0
      show (match dictGet (rest.map (fun t => (t.id, NodeData.task t))) t.id with
        | some r => some r
        | none => if t0.id = t.id then some (NodeData.task t0) else none) = _
      rw [this]

/-- In a built forest with pairwise distinct task ids, each input task is
registered under its own id. -/
theorem built_getData_of_task {ps : List Project} {ss : List Sec} {ts : List Task}
    {f : Forest} {t : Task}
    (hmap : map_id_to_branch ps ss ts = .ok f)
    (hnd : (ts.map (fun t => t.id)).Nodup) (ht : t ∈ ts) :
    f.getData t.id = some (.task t) := by
  show dictGet f.nodeEntries t.id = _
  rw [built_nodeEntries hmap, dictGet_append, dictGet_tasks_nodup hnd ht]

/-! Select-level glue. -/

/-- Inversion of a successful `select_serial`. -/
theorem select_serial_inv {ps : List Project} {ss : List Sec} {ts : List Task}
    {f : Forest} {sfx : List Char} {fuel : Nat} {m c : List Task}
    (h : select_serial ps ss ts f sfx fuel = .ok (m, c)) :
    ∃ sel, serialFold f fuel (markersOf ps ss ts sfx) [] = .ok sel
      ∧ m = sel.map (fun e => e.2)
      ∧ c = ts.filter (fun x => !(sel.any (fun e => e.1 == x.id))) := by
  unfold select_serial at h
  cases h1 : serialFold f fuel (markersOf ps ss ts sfx) [] with
  | error e => rw [h1] at h; cases h
  | ok sel =>
    rw [h1] at h
    simp only [] at h
    injection h with hmc
    exact ⟨sel, rfl, (congrArg Prod.fst hmc).symm, (congrArg Prod.snd hmc).symm⟩

/-- Inversion of a successful `select_parallel`. -/
theorem select_parallel_inv {ps : List Project} {ss : List Sec} {ts : List Task}
    {f : Forest} {sfx : List Char} {fuel : Nat} {m c : List Task}
    (h : select_parallel ps ss ts f sfx fuel = .ok (m, c)) :
    ∃ sel, collectFold (iter_childless_tasks f fuel) (markersOf ps ss ts sfx) [] = .ok sel
      ∧ m = sel.map (fun e => e.2)
      ∧ c = ts.filter (fun x => !(sel.any (fun e => e.1 == x.id))) := by
  unfold select_parallel at h
  cases h1 : collectFold (iter_childless_tasks f fuel) (markersOf ps ss ts sfx) [] with
  | error e => rw [h1] at h; cases h
  | ok sel =>
    rw [h1] at h
    simp only [] at h
    injection h with hmc
    exact ⟨sel, rfl, (congrArg Prod.fst hmc).symm, (congrArg Prod.snd hmc).symm⟩

/-- Inversion of a successful `select_all`. -/
theorem select_all_inv {ps : List Project} {ss : List Sec} {ts : List Task}
    {f : Forest} {sfx : List Char} {fuel : Nat} {m c : List Task}
    (h : select_all ps ss ts f sfx fuel = .ok (m, c)) :
    ∃ sel, collectFold (iter_tasks f fuel) (markersOf ps ss ts sfx) [] = .ok sel
      ∧ m = sel.map (fun e => e.2)
      ∧ c = ts.filter (fun x => !(sel.any (fun e => e.1 == x.id))) := by
  unfold select_all at h
  cases h1 : collectFold (iter_tasks f fuel) (markersOf ps ss ts sfx) [] with
  | error e => rw [h1] at h; cases h
  | ok sel =>
    rw [h1] at h
    simp only [] at h
    injection h with hmc
    exact ⟨sel, rfl, (congrArg Prod.fst hmc).symm, (congrArg Prod.snd hmc).symm⟩

/-- The ids of `selected.values()` are the keys of `selected`. -/
theorem sel_keys_eq {sel : List (String × Task)}
    (hinv : ∀ e ∈ sel, e.1 = e.2.id) :
    (sel.map (fun e => e.2)).map (fun t => t.id) = sel.map (fun e => e.1) := by
  rw [List.map_map]
  apply List.map_congr_left
  intro e he
  exact (hinv e he).symm

/-- Key membership matches the `x.id not in selected` test of the source. -/
theorem sel_any_iff {sel : List (String × Task)} {k : String} :
    k ∈ sel.map (fun e => e.1) ↔ sel.any (fun e => e.1 == k) = true := by
  rw [List.any_eq_true]
  constructor
  · intro hk
    rcases List.mem_map.1 hk with ⟨e, he, rfl⟩
    exact ⟨e, he, beq_self_eq_true _⟩
  · rintro ⟨e, he, hbe⟩
    exact List.mem_map.2 ⟨e, he, eq_of_beq hbe⟩

/-- The membership test stated through `List.contains` on the key list. -/
theorem sel_contains_eq (sel : List (String × Task)) (k : String) :
    (sel.map (fun e => e.1)).contains k = sel.any (fun e => e.1 == k) := by
  rw [Bool.eq_iff_iff]
  constructor
  · intro hc
    exact sel_any_iff.1 (List.elem_iff.1 hc)
  · intro ha
    exact List.elem_iff.2 (sel_any_iff.2 ha)

/-- The source's return shape partitions the task list by id whenever every
recorded entry keys one of the input tasks by its id. -/
theorem selectReturn_partition {ts : List Task} {sel : List (String × Task)}
    (hinv : ∀ e ∈ sel, e.1 = e.2.id ∧ e.2 ∈ ts) :
    List.Disjoint ((sel.map (fun e => e.2)).map (fun t => t.id))
        ((ts.filter (fun x => !(sel.any (fun e => e.1 == x.id)))).map (fun t => t.id))
    ∧ (sel.map (fun e => e.2)).map (fun t => t.id) ⊆ ts.map (fun t => t.id)
    ∧ ts.map (fun t => t.id) ⊆ (sel.map (fun e => e.2)).map (fun t => t.id)
        ++ (ts.filter (fun x => !(sel.any (fun e => e.1 == x.id)))).map (fun t => t.id)
    ∧ ts.filter (fun x => !(sel.any (fun e => e.1 == x.id)))
        = ts.filter (fun x => !(((sel.map (fun e => e.2)).map (fun t => t.id)).contains x.id)) := by
  have hkeys := sel_keys_eq (fun e he => (hinv e he).1)
  refine ⟨?_, ?_, ?_, ?_⟩
  · intro k hk1 hk2
    rw [hkeys] at hk1
    rcases List.mem_map.1 hk2 with ⟨x, hx, rfl⟩
    rcases List.mem_filter.1 hx with ⟨hxts, hpred⟩
    have hany : sel.any (fun e => e.1 == x.id) = true := sel_any_iff.1 hk1
    rw [hany] at hpred
    cases hpred
  · intro k hk
    rw [hkeys] at hk
    rcases List.mem_map.1 hk with ⟨e, he, rfl⟩
    exact List.mem_map.2 ⟨e.2, (hinv e he).2, ((hinv e he).1).symm⟩
  · intro k hk
    rcases List.mem_map.1 hk with ⟨x, hx, rfl⟩
    cases hval : sel.any (fun e => e.1 == x.id) with
    | true =>
      refine List.mem_append.2 (Or.inl ?_)
      rw [hkeys]
      exact sel_any_iff.2 hval
    | false =>
      refine List.mem_append.2 (Or.inr ?_)
      refine List.mem_map.2 ⟨x, List.mem_filter.2 ⟨hx, ?_⟩, rfl⟩
      rw [hval]
      rfl
  · apply List.filter_congr
    intro x _
    rw [hkeys, sel_contains_eq sel x.id]

/-- C1: over a built forest, each of the three selecters partitions the input
task list by id whenever it returns: the toMark and toClear id lists are
disjoint, the toMark ids all come from the input tasks, every input task id
is in toMark or toClear, and toClear is exactly the input tasks whose id was
not selected. -/
theorem claim_C1_partition (ps : List Project) (ss : List Sec) (ts : List Task)
    (sfx : List Char) (fuel : Nat) (f : Forest) (m1 c1 m2 c2 m3 c3 : List Task)
    (hmap : map_id_to_branch ps ss ts = .ok f) :
    (select_serial ps ss ts f sfx fuel = .ok (m1, c1) →
        List.Disjoint (m1.map (fun t => t.id)) (c1.map (fun t => t.id))
        ∧ m1.map (fun t => t.id) ⊆ ts.map (fun t => t.id)
        ∧ ts.map (fun t => t.id) ⊆ m1.map (fun t => t.id) ++ c1.map (fun t => t.id)
        ∧ c1 = ts.filter (fun x => !((m1.map (fun t => t.id)).contains x.id)))
    ∧ (select_parallel ps ss ts f sfx fuel = .ok (m2, c2) →
        List.Disjoint (m2.map (fun t => t.id)) (c2.map (fun t => t.id))
        ∧ m2.map (fun t => t.id) ⊆ ts.map (fun t => t.id)
        ∧ ts.map (fun t => t.id) ⊆ m2.map (fun t => t.id) ++ c2.map (fun t => t.id)
        ∧ c2 = ts.filter (fun x => !((m2.map (fun t => t.id)).contains x.id)))
    ∧ (select_all ps ss ts f sfx fuel = .ok (m3, c3) →
        List.Disjoint (m3.map (fun t => t.id)) (c3.map (fun t => t.id))
        ∧ m3.map (fun t => t.id) ⊆ ts.map (fun t => t.id)
        ∧ ts.map (fun t => t.id) ⊆ m3.map (fun t => t.id) ++ c3.map (fun t => t.id)
        ∧ c3 = ts.filter (fun x => !((m3.map (fun t => t.id)).contains x.id))) := by
  refine ⟨?_, ?_, ?_⟩
  · intro hsel
    obtain ⟨sel, hfold, hm, hc⟩ := select_serial_inv hsel
    have hinv : ∀ e ∈ sel, e.1 = e.2.id ∧ e.2 ∈ ts := by
      refine serialFold_entries (fun t => t ∈ ts) ?_ hfold ?_
      · intro i t hfc
        rcases firstChildless_mem f fuel hfc with ⟨j, hj, _⟩
        exact (built_getData_task hmap hj).1
      · intro e he
        cases he
    subst hm
    subst hc
    exact selectReturn_partition hinv
  · intro hsel
    obtain ⟨sel, hfold, hm, hc⟩ := select_parallel_inv hsel
    have hinv : ∀ e ∈ sel, e.1 = e.2.id ∧ e.2 ∈ ts := by
      refine collectFold_entries (fun t => t ∈ ts) ?_ hfold ?_
      · intro i t L hrun ht
        rcases iter_childless_mem f fuel hrun ht with ⟨j, hj, _⟩
        exact (built_getData_task hmap hj).1
      · intro e he
        cases he
    subst hm
    subst hc
    exact selectReturn_partition hinv
  · intro hsel
    obtain ⟨sel, hfold, hm, hc⟩ := select_all_inv hsel
    have hinv : ∀ e ∈ sel, e.1 = e.2.id ∧ e.2 ∈ ts := by
      refine collectFold_entries (fun t => t ∈ ts) ?_ hfold ?_
      · intro i t L hrun ht
        rcases iter_tasks_mem f fuel hrun ht with ⟨j, hj⟩
        exact (built_getData_task hmap hj).1
      · intro e he
        cases he
    subst hm
    subst hc
    exact selectReturn_partition hinv

/-- Witness for C1: concrete partitions on the batch ([prjInbox], [],
[taskFirst, taskSecond]) with suffix "--" for all three selecters. -/
theorem claim_C1_witness :
    (List.Disjoint ([taskFirst].map (fun t => t.id)) ([taskSecond].map (fun t => t.id))
      ∧ [taskFirst].map (fun t => t.id) ⊆ [taskFirst, taskSecond].map (fun t => t.id)
      ∧ [taskFirst, taskSecond].map (fun t => t.id) ⊆
          [taskFirst].map (fun t => t.id) ++ [taskSecond].map (fun t => t.id)
      ∧ [taskSecond] = [taskFirst, taskSecond].filter
          (fun x => !(([taskFirst].map (fun t => t.id)).contains x.id)))
    ∧ (List.Disjoint ([taskFirst, taskSecond].map (fun t => t.id)) (([] : List Task).map (fun t => t.id))
      ∧ [taskFirst, taskSecond].map (fun t => t.id) ⊆ [taskFirst, taskSecond].map (fun t => t.id)
      ∧ [taskFirst, taskSecond].map (fun t => t.id) ⊆
          [taskFirst, taskSecond].map (fun t => t.id) ++ ([] : List Task).map (fun t => t.id)
      ∧ ([] : List Task) = [taskFirst, taskSecond].filter
          (fun x => !(([taskFirst, taskSecond].map (fun t => t.id)).contains x.id)))
    ∧ (List.Disjoint ([taskFirst, taskSecond].map (fun t => t.id)) (([] : List Task).map (fun t => t.id))
      ∧ [taskFirst, taskSecond].map (fun t => t.id) ⊆ [taskFirst, taskSecond].map (fun t => t.id)
      ∧ [taskFirst, taskSecond].map (fun t => t.id) ⊆
          [taskFirst, taskSecond].map (fun t => t.id) ++ ([] : List Task).map (fun t => t.id)
      ∧ ([] : List Task) = [taskFirst, taskSecond].filter
          (fun x => !(([taskFirst, taskSecond].map (fun t => t.id)).contains x.id))) := by
  have h := claim_C1_partition [prjInbox] [] [taskFirst, taskSecond] "--".data 5 forestInbox
    [taskFirst] [taskSecond] [taskFirst, taskSecond] [] [taskFirst, taskSecond] [] rfl
  exact ⟨h.1 rfl, h.2.1 rfl, h.2.2 rfl⟩

/-- C8: on any forest, markers and suffix, when all three selecters return,
the serial toMark id list is contained in the parallel one, which is
contained in the all one. -/
theorem claim_C8_policy_monotonicity (ps : List Project) (ss : List Sec) (ts : List Task)
    (f : Forest) (sfx : List Char) (fuel : Nat) (m1 c1 m2 c2 m3 c3 : List Task)
    (h1 : select_serial ps ss ts f sfx fuel = .ok (m1, c1))
    (h2 : select_parallel ps ss ts f sfx fuel = .ok (m2, c2))
    (h3 : select_all ps ss ts f sfx fuel = .ok (m3, c3)) :
    m1.map (fun t => t.id) ⊆ m2.map (fun t => t.id)
    ∧ m2.map (fun t => t.id) ⊆ m3.map (fun t => t.id) := by
  obtain ⟨sel1, hf1, hm1, _⟩ := select_serial_inv h1
  obtain ⟨sel2, hf2, hm2, _⟩ := select_parallel_inv h2
  obtain ⟨sel3, hf3, hm3, _⟩ := select_all_inv h3
  have hnil : ∀ k : String, k ∈ ([] : List (String × Task)).map (fun e => e.1) → False := by
    intro k hk
    cases hk
  have hk1 : m1.map (fun t => t.id) = sel1.map (fun e => e.1) := by
    rw [hm1]
    exact sel_keys_eq (fun e he =>
      (serialFold_entries (fun _ => True) (fun _ _ _ => trivial) hf1
        (fun e he => by cases he) e he).1)
  have hk2 : m2.map (fun t => t.id) = sel2.map (fun e => e.1) := by
    rw [hm2]
    exact sel_keys_eq (fun e he =>
      (collectFold_entries (fun _ => True) (fun _ _ _ _ _ => trivial) hf2
        (fun e he => by cases he) e he).1)
  have hk3 : m3.map (fun t => t.id) = sel3.map (fun e => e.1) := by
    rw [hm3]
    exact sel_keys_eq (fun e he =>
      (collectFold_entries (fun _ => True) (fun _ _ _ _ _ => trivial) hf3
        (fun e he => by cases he) e he).1)
  rw [hk1, hk2, hk3]
  constructor
  · intro k hk
    exact serialFold_keys_sub (fun i t L hf hc => firstChildless_mem_run f fuel hf hc)
      hf1 hf2 (fun k hk0 => absurd hk0 (fun h => hnil k h)) k hk
  · intro k hk
    exact collectFold_keys_sub (fun i L L' ha hb => iter_childless_subset f fuel ha hb)
      hf2 hf3 (fun k hk0 => absurd hk0 (fun h => hnil k h)) k hk

/-- Witness for C8: concrete inclusions on the batch ([prjInbox], [],
[taskFirst, taskSecond]) with suffix "--". -/
theorem claim_C8_witness :
    [taskFirst].map (fun t => t.id) ⊆ [taskFirst, taskSecond].map (fun t => t.id)
    ∧ [taskFirst, taskSecond].map (fun t => t.id) ⊆
        [taskFirst, taskSecond].map (fun t => t.id) :=
  claim_C8_policy_monotonicity [prjInbox] [] [taskFirst, taskSecond] forestInbox
    "--".data 5 [taskFirst] [taskSecond] [taskFirst, taskSecond] []
    [taskFirst, taskSecond] [] rfl rfl rfl

/-- With the empty suffix every entity is a marker: every string ends with
the empty string. -/
theorem has_suffix_nil (d : NodeData) : _has_suffix d [] = true := by
  cases d <;> simp [_has_suffix, endswith]

/-- With the empty suffix each task is in the marker list. -/
theorem task_marker_nil {ps : List Project} {ss : List Sec} {ts : List Task} {t : Task}
    (ht : t ∈ ts) : NodeData.task t ∈ markersOf ps ss ts [] := by
  refine List.mem_filter.2 ⟨?_, has_suffix_nil _⟩
  exact List.mem_append.2 (Or.inr (List.mem_map.2 ⟨t, ht, rfl⟩))

/-- C10 amended: with the empty suffix, over a built forest with pairwise
distinct task ids, whenever `select_serial` or `select_parallel` returns, its
toMark holds exactly the ids of the childless tasks (those whose node has no
children), and whenever `select_all` returns, its toMark holds exactly the
ids of all tasks and its toClear is empty. -/
theorem claim_C10_empty_suffix (ps : List Project) (ss : List Sec) (ts : List Task)
    (fuel : Nat) (f : Forest) (m1 c1 m2 c2 m3 c3 : List Task)
    (hmap : map_id_to_branch ps ss ts = .ok f)
    (hnd : (ts.map (fun t => t.id)).Nodup) :
    (select_serial ps ss ts f [] fuel = .ok (m1, c1) →
        m1.map (fun t => t.id) ⊆
          (ts.filter (fun t => (f.childrenOf t.id).isEmpty)).map (fun t => t.id)
        ∧ (ts.filter (fun t => (f.childrenOf t.id).isEmpty)).map (fun t => t.id) ⊆
          m1.map (fun t => t.id))
    ∧ (select_parallel ps ss ts f [] fuel = .ok (m2, c2) →
        m2.map (fun t => t.id) ⊆
          (ts.filter (fun t => (f.childrenOf t.id).isEmpty)).map (fun t => t.id)
        ∧ (ts.filter (fun t => (f.childrenOf t.id).isEmpty)).map (fun t => t.id) ⊆
          m2.map (fun t => t.id))
    ∧ (select_all ps ss ts f [] fuel = .ok (m3, c3) →
        m3.map (fun t => t.id) ⊆ ts.map (fun t => t.id)
        ∧ ts.map (fun t => t.id) ⊆ m3.map (fun t => t.id)
        ∧ c3 = []) := by
  refine ⟨?_, ?_, ?_⟩
  · intro hsel
    obtain ⟨sel, hfold, hm, hc⟩ := select_serial_inv hsel
    have hinv : ∀ e ∈ sel, e.1 = e.2.id ∧ (e.2 ∈ ts ∧ f.childrenOf e.2.id = []) := by
      refine serialFold_entries (fun t => t ∈ ts ∧ f.childrenOf t.id = []) ?_ hfold ?_
      · intro i t hfc
        rcases firstChildless_mem f fuel hfc with ⟨j, hj, hjc⟩
        rcases built_getData_task hmap hj with ⟨hts, hjid⟩
        subst hjid
        exact ⟨hts, hjc⟩
      · intro e he
        cases he
    have hkeys : m1.map (fun t => t.id) = sel.map (fun e => e.1) := by
      rw [hm]
      exact sel_keys_eq (fun e he => (hinv e he).1)
    constructor
    · intro k hk
      rw [hkeys] at hk
      rcases List.mem_map.1 hk with ⟨e, he, rfl⟩
      rcases hinv e he with ⟨hek, het, hch⟩
      refine List.mem_map.2 ⟨e.2, List.mem_filter.2 ⟨het, ?_⟩, hek.symm⟩
      rw [hch]
      rfl
    · intro k hk
      rcases List.mem_map.1 hk with ⟨x, hx, rfl⟩
      rcases List.mem_filter.1 hx with ⟨hxts, hxch⟩
      have hch : f.childrenOf x.id = [] := List.isEmpty_iff.1 hxch
      have hmark := @task_marker_nil ps ss ts _ hxts
      rcases serialFold_ok hfold _ hmark with ⟨r, hr⟩
      cases fuel with
      | zero => cases hr
      | succ n =>
        have hfc : firstChildless f (n + 1) x.id = .ok (some x) :=
          firstChildless_self n (built_getData_of_task hmap hnd hxts) hch
        rw [hkeys]
        exact serialFold_contrib hfold hmark hfc
  · intro hsel
    obtain ⟨sel, hfold, hm, hc⟩ := select_parallel_inv hsel
    have hinv : ∀ e ∈ sel, e.1 = e.2.id ∧ (e.2 ∈ ts ∧ f.childrenOf e.2.id = []) := by
      refine collectFold_entries (fun t => t ∈ ts ∧ f.childrenOf t.id = []) ?_ hfold ?_
      · intro i t L hrun ht
        rcases iter_childless_mem f fuel hrun ht with ⟨j, hj, hjc⟩
        rcases built_getData_task hmap hj with ⟨hts, hjid⟩
        subst hjid
        exact ⟨hts, hjc⟩
      · intro e he
        cases he
    have hkeys : m2.map (fun t => t.id) = sel.map (fun e => e.1) := by
      rw [hm]
      exact sel_keys_eq (fun e he => (hinv e he).1)
    constructor
    · intro k hk
      rw [hkeys] at hk
      rcases List.mem_map.1 hk with ⟨e, he, rfl⟩
      rcases hinv e he with ⟨hek, het, hch⟩
      refine List.mem_map.2 ⟨e.2, List.mem_filter.2 ⟨het, ?_⟩, hek.symm⟩
      rw [hch]
      rfl
    · intro k hk
      rcases List.mem_map.1 hk with ⟨x, hx, rfl⟩
      rcases List.mem_filter.1 hx with ⟨hxts, hxch⟩
      have hch : f.childrenOf x.id = [] := List.isEmpty_iff.1 hxch
      have hmark := @task_marker_nil ps ss ts _ hxts
      rcases collectFold_ok hfold _ hmark with ⟨L, hL⟩
      cases fuel with
      | zero => cases hL
      | succ n =>
        have hrun : iter_childless_tasks f (n + 1) x.id = .ok [x] :=
          iter_childless_self n (built_getData_of_task hmap hnd hxts) hch
        rw [hkeys]
        exact collectFold_contrib hfold hmark hrun (List.mem_singleton.2 rfl)
  · intro hsel
    obtain ⟨sel, hfold, hm, hc⟩ := select_all_inv hsel
    have hinv : ∀ e ∈ sel, e.1 = e.2.id ∧ e.2 ∈ ts := by
      refine collectFold_entries (fun t => t ∈ ts) ?_ hfold ?_
      · intro i t L hrun ht
        rcases iter_tasks_mem f fuel hrun ht with ⟨j, hj⟩
        exact (built_getData_task hmap hj).1
      · intro e he
        cases he
    have hkeys : m3.map (fun t => t.id) = sel.map (fun e => e.1) := by
      rw [hm]
      exact sel_keys_eq (fun e he => (hinv e he).1)
    have hsup : ∀ x ∈ ts, x.id ∈ sel.map (fun e => e.1) := by
      intro x hxts
      have hmark := @task_marker_nil ps ss ts _ hxts
      rcases collectFold_ok hfold _ hmark with ⟨L, hL⟩
      have hself : x ∈ L := iter_tasks_self (built_getData_of_task hmap hnd hxts) hL
      exact collectFold_contrib hfold hmark hL hself
    refine ⟨?_, ?_, ?_⟩
    · intro k hk
      rw [hkeys] at hk
      rcases List.mem_map.1 hk with ⟨e, he, rfl⟩
      exact List.mem_map.2 ⟨e.2, (hinv e he).2, ((hinv e he).1).symm⟩
    · intro k hk
      rcases List.mem_map.1 hk with ⟨x, hx, rfl⟩
      rw [hkeys]
      exact hsup x hx
    · rw [hc]
      apply List.filter_eq_nil_iff.2
      intro x hx
      have hany : sel.any (fun e => e.1 == x.id) = true := sel_any_iff.1 (hsup x hx)
      rw [hany]
      simp

/-- C10 counterexample: the claim quantifies over every well-formed batch,
but on the well-formed batch {project "r", subproject "u" with parent "r"}
(all parent references resolve, no cycles) the empty suffix makes "r" a
marker and `select_all` raises ValueError while sorting its children instead
of returning every task in toMark. -/
theorem claim_C10_counterexample :
    (map_id_to_branch [prjRoot, prjSub] [] []).bind
        (fun f => select_all [prjRoot, prjSub] [] [] f [] 5)
      = .error "Unexpected node type" := rfl

/-- Witness for C10: concrete id-set equalities on the batch ([prjInbox], [],
[taskFirst, taskSecond]) with the empty suffix. -/
theorem claim_C10_witness :
    ([taskFirst, taskSecond].map (fun t => t.id) ⊆
        ([taskFirst, taskSecond].filter
          (fun t => (forestInbox.childrenOf t.id).isEmpty)).map (fun t => t.id)
      ∧ ([taskFirst, taskSecond].filter
          (fun t => (forestInbox.childrenOf t.id).isEmpty)).map (fun t => t.id) ⊆
        [taskFirst, taskSecond].map (fun t => t.id))
    ∧ ([taskFirst, taskSecond].map (fun t => t.id) ⊆
        ([taskFirst, taskSecond].filter
          (fun t => (forestInbox.childrenOf t.id).isEmpty)).map (fun t => t.id)
      ∧ ([taskFirst, taskSecond].filter
          (fun t => (forestInbox.childrenOf t.id).isEmpty)).map (fun t => t.id) ⊆
        [taskFirst, taskSecond].map (fun t => t.id))
    ∧ ([taskFirst, taskSecond].map (fun t => t.id) ⊆ [taskFirst, taskSecond].map (fun t => t.id)
      ∧ [taskFirst, taskSecond].map (fun t => t.id) ⊆ [taskFirst, taskSecond].map (fun t => t.id)
      ∧ ([] : List Task) = []) := by
  have h := claim_C10_empty_suffix [prjInbox] [] [taskFirst, taskSecond] 5 forestInbox
    [taskFirst, taskSecond] [] [taskFirst, taskSecond] [] [taskFirst, taskSecond] []
    rfl (by decide)
  exact ⟨h.1 rfl, h.2.1 rfl, h.2.2 rfl⟩

end TodoistBot
